import Mathlib

/-!
Shallow embedding of `fetchCreatorChats` from `src/lib/chatService.ts` of the
influenciando_ugc_platform repository, together with the bulk-store trace it
issues, and theorems checking the specification's claims about it.

Modelling conventions:
* ids and timestamps are `Nat` (ISO timestamp strings compare chronologically
  via `new Date`, which is order-isomorphic to `Nat`; `null` timestamps are
  `Option.none`).
* The external Supabase store is a `Store` structure holding the raw table
  contents plus one error flag per bulk operation the function issues; a
  Supabase response `{ data, error }` with a non-null error (so `data = null`)
  is modelled by the flag being `true`.
* JavaScript `Map` objects built by one pass of `set` calls are modelled as
  insertion-ordered association lists; `Map.get` is `List.find?` on them.
-/

/-- Row of the `conversations` table as selected by the function
(id, analyst_id, creator_id, opportunity_id, created_at, last_message_at,
custom_title, tags). -/
structure ConversationRow where
  id : Nat
  analyst_id : Nat
  creator_id : Nat
  opportunity_id : Option Nat
  created_at : Nat
  last_message_at : Option Nat
  custom_title : Option String
  tags : Option (List String)
deriving DecidableEq

/-- Row of the `analysts` table (`AnalystData` in the source). -/
structure AnalystRow where
  id : Nat
  name : String
  email : String
  avatar_url : Option String
deriving DecidableEq

/-- Row of the `profiles` table (`ProfileData` in the source). -/
structure ProfileRow where
  id : Nat
  full_name : String
  email : String
  avatar_url : Option String
deriving DecidableEq

/-- Row of the `opportunity_applications` table; `creator_id` and `status`
are the columns the query filters on, the rest is the selected
`ApplicationData`. -/
structure ApplicationRow where
  id : Nat
  creator_id : Nat
  opportunity_id : Nat
  status : String
  applied_at : Nat
deriving DecidableEq

/-- Row of the `opportunities` table (`OpportunityData` in the source). -/
structure OpportunityRow where
  id : Nat
  title : String
  company : String
  analyst_id : Nat
  created_by : Nat
deriving DecidableEq

/-- Row of the `messages` table; `read` and `sender_id` are filtered on by the
unread query, `content`, `sender_type`, `created_at` are selected by the
latest-message RPC. -/
structure MessageRow where
  id : Nat
  conversation_id : Nat
  content : String
  sender_type : String
  sender_id : Nat
  read : Bool
  created_at : Nat
deriving DecidableEq

/-- The bulk data store: table contents plus one transport-error flag per bulk
operation issued by `fetchCreatorChats`. -/
structure Store where
  conversations : List ConversationRow
  analysts : List AnalystRow
  profiles : List ProfileRow
  applications : List ApplicationRow
  opportunities : List OpportunityRow
  messages : List MessageRow
  convError : Bool
  analystsError : Bool
  profilesError : Bool
  applicationsError : Bool
  opportunitiesError : Bool
  messagesError : Bool
  rpcError : Bool
deriving DecidableEq

/-- Nested `opportunity` object of the output `ProjectChat`. -/
structure OpportunityOut where
  id : Nat
  title : String
  company : String
  status : String
  analyst_id : Nat
  created_by : Nat
deriving DecidableEq

/-- Nested `analyst` object of the output `ProjectChat`. -/
structure AnalystOut where
  name : String
  company : String
  avatar_url : Option String
deriving DecidableEq

/-- Nested `lastMessage` object of the output `ProjectChat`. -/
structure LastMessageOut where
  content : String
  sender_type : String
  created_at : Nat
deriving DecidableEq

/-- The output record of `fetchCreatorChats` (`ProjectChat` in the source;
the `opportunity` and `analyst` objects are always constructed non-null at
the single construction site, so they are not optional here). -/
structure ProjectChat where
  project_id : Nat
  opportunity_id : Nat
  opportunity : OpportunityOut
  analyst : AnalystOut
  conversation_id : Nat
  last_message_at : Option Nat
  lastMessage : Option LastMessageOut
  unread_count : Nat
  custom_title : Option String
  tags : List String
deriving DecidableEq

/-- Key comparison realising the query's
`order('last_message_at', { ascending: false })`: PostgreSQL `DESC` places
nulls first; `convBefore a b` says a row with key `a` may be placed before a
row with key `b`. -/
def convBefore (a b : Option Nat) : Bool :=
  match a, b with
  | none, _ => true
  | some _, none => false
  | some x, some y => y ≤ x

/-- Stable insertion for the store-side sort. -/
def insertSorted (c : ConversationRow) : List ConversationRow → List ConversationRow
  | [] => [c]
  | d :: ds =>
    if convBefore d.last_message_at c.last_message_at then d :: insertSorted c ds
    else c :: d :: ds

/-- Stable sort by `last_message_at` descending, nulls first: the order in
which the store hands conversation rows to the function. -/
def sortConvs (l : List ConversationRow) : List ConversationRow :=
  l.foldl (fun acc c => insertSorted c acc) []

/-- The result rows of the conversations query for `userId` (step 1 of the
source), in store-returned order. -/
def convsOf (s : Store) (userId : Nat) : List ConversationRow :=
  sortConvs (s.conversations.filter (fun c => c.creator_id == userId))

/-- One value of the `analystConversations` map (step 2 of the source): the
group's canonical conversation metadata.  The `projects`/`unread_count`
fields seeded in the source are dead until step 4 and are not stored. -/
structure ConvGroup where
  id : Nat
  analyst_id : Nat
  creator_id : Nat
  created_at : Nat
  last_message_at : Option Nat
  custom_title : Option String
  tags : Option (List String)
deriving DecidableEq

/-- The test on line 119 of the source:
`currentDate && (!existingDate || currentDate > existingDate)`. -/
def newerThan (current existing : Option Nat) : Bool :=
  match current, existing with
  | some _, none => true
  | some c, some e => e < c
  | none, _ => false

/-- Seeding a group from its first conversation (lines 101–113). -/
def seedGroup (c : ConversationRow) : ConvGroup :=
  ⟨c.id, c.analyst_id, c.creator_id, c.created_at, c.last_message_at,
   c.custom_title, c.tags⟩

/-- Canonical-metadata replacement on a subsequent sighting (lines 114–125). -/
def updateGroup (g : ConvGroup) (c : ConversationRow) : ConvGroup :=
  if newerThan c.last_message_at g.last_message_at then
    { g with id := c.id, last_message_at := c.last_message_at,
             custom_title := c.custom_title, tags := c.tags }
  else g

/-- One iteration of the grouping loop on the `analystConversations` map,
modelled as an insertion-ordered list of groups. -/
def insertConv (groups : List ConvGroup) (c : ConversationRow) : List ConvGroup :=
  if groups.any (fun g => g.analyst_id == c.analyst_id) then
    groups.map (fun g => if g.analyst_id == c.analyst_id then updateGroup g c else g)
  else groups ++ [seedGroup c]

/-- The `analystConversations` map after the grouping loop, in insertion
order. -/
def groupsOf (convs : List ConversationRow) : List ConvGroup :=
  convs.foldl insertConv []

/-- One iteration of the grouping loop on the `allConversationsByAnalyst`
map (line 128: every conversation id is appended to its analyst's list). -/
def insertConvId (m : List (Nat × List Nat)) (c : ConversationRow) :
    List (Nat × List Nat) :=
  if m.any (fun p => p.1 == c.analyst_id) then
    m.map (fun p => if p.1 == c.analyst_id then (p.1, p.2 ++ [c.id]) else p)
  else m ++ [(c.analyst_id, [c.id])]

/-- The `allConversationsByAnalyst` map after the grouping loop. -/
def idsMapOf (convs : List ConversationRow) : List (Nat × List Nat) :=
  convs.foldl insertConvId []

/-- `allConversationsByAnalyst.get(a) || []` (line 258). -/
def convIdsFor (m : List (Nat × List Nat)) (a : Nat) : List Nat :=
  match m.find? (fun p => p.1 == a) with
  | some p => p.2
  | none => []

/-- Insertion-ordered deduplication: a JavaScript `Set` materialised with
`Array.from` (the `allAnalystIds` set, lines 96–134). -/
def dedupFirst (l : List Nat) : List Nat :=
  l.foldl (fun acc x => if acc.contains x then acc else acc ++ [x]) []

/-- The distinct analyst ids of the fetched conversations
(`analystIdsArray`). -/
def analystIdsOf (s : Store) (userId : Nat) : List Nat :=
  dedupFirst ((convsOf s userId).map (fun c => c.analyst_id))

/-- The flattened list of all fetched conversation ids (`allConvIds` and
`allConversationIds`, built identically on lines 190–191 and 211–212). -/
def allConvIdsOf (s : Store) (userId : Nat) : List Nat :=
  (idsMapOf (convsOf s userId)).foldl (fun acc p => acc ++ p.2) []

/-- A value of the `analystsMap` (name, email, avatar_url). -/
structure AnalystInfo where
  name : String
  email : String
  avatar_url : Option String
deriving DecidableEq

/-- Resolved display identity for one analyst id (the `analystsMap` of
lines 135–163 read back, including the line 236 `|| sentinel` fallback):
the `analysts` row wins, then the `profiles` row, then the sentinel.  An
errored fetch has `data = null`, over which `find` yields nothing. -/
def identityFor (s : Store) (ids : List Nat) (a : Nat) : AnalystInfo :=
  if ids.contains a then
    match ((if s.analystsError then [] else
        s.analysts.filter (fun r => ids.contains r.id)).find?
          (fun r => r.id == a)) with
    | some r => ⟨r.name, r.email, r.avatar_url⟩
    | none =>
      match ((if s.profilesError then [] else
          s.profiles.filter (fun r => ids.contains r.id)).find?
            (fun r => r.id == a)) with
      | some p => ⟨p.full_name, p.email, p.avatar_url⟩
      | none => ⟨"Analista", "", none⟩
  else ⟨"Analista", "", none⟩

/-- The `(applications || [])` list: approved applications of the user
(lines 166–171), `[]` when the fetch errored. -/
def appsFetched (s : Store) (userId : Nat) : List ApplicationRow :=
  if s.applicationsError then []
  else s.applications.filter
    (fun a => a.creator_id == userId && a.status == "approved")

/-- The `opportunityIds` list (line 174). -/
def oppIdsOf (s : Store) (userId : Nat) : List Nat :=
  (appsFetched s userId).map (fun a => a.opportunity_id)

/-- Rows returned by the opportunities fetch (lines 177–187); empty when the
fetch is skipped (no ids) or errored. -/
def oppsFetched (s : Store) (userId : Nat) : List OpportunityRow :=
  if (oppIdsOf s userId).isEmpty || s.opportunitiesError then []
  else s.opportunities.filter (fun o => (oppIdsOf s userId).contains o.id)

/-- `opportunitiesMap.get(oid)`: the map is filled by a `forEach` of `set`
calls, so a later row with the same id overwrites an earlier one. -/
def oppLookup (s : Store) (userId : Nat) (oid : Nat) : Option OpportunityRow :=
  ((oppsFetched s userId).filter (fun o => o.id == oid)).getLast?

/-- Rows returned by the unread-messages fetch (lines 195–202). -/
def unreadMsgsOf (s : Store) (userId : Nat) : List MessageRow :=
  if (allConvIdsOf s userId).isEmpty || s.messagesError then []
  else s.messages.filter (fun m =>
    (allConvIdsOf s userId).contains m.conversation_id
      && !m.read && m.sender_id != userId)

/-- `unreadCountsMap.get(c) || 0`: the tally of lines 204–207. -/
def unreadCountOf (s : Store) (userId : Nat) (c : Nat) : Nat :=
  (unreadMsgsOf s userId).countP (fun m => m.conversation_id == c)

/-- Modelled from the spec: the body of the `get_latest_messages` store
procedure is not in the repository sources (only its call site is); §4.5 of
the spec contracts it to one bulk retrieval of the most recent message per
requested thread id.  Modelled as, per conversation, the first row (in table
order) with maximal `created_at` among that conversation's messages. -/
def latestPerConversation (msgs : List MessageRow) (c : Nat) : Option MessageRow :=
  (msgs.filter (fun m => m.conversation_id == c)).foldl
    (fun acc m =>
      match acc with
      | none => some m
      | some b => if b.created_at < m.created_at then some m else some b)
    none

/-- `latestMessagesMap.get(c)` (lines 210–230): absent when the RPC was
skipped, errored, or `c` was not among the requested ids. -/
def latestFromRpc (s : Store) (userId : Nat) (c : Nat) : Option MessageRow :=
  if (allConvIdsOf s userId).isEmpty || s.rpcError
      || !((allConvIdsOf s userId).contains c) then none
  else latestPerConversation s.messages c

/-- The per-group reduction of lines 260–277: the most recent message among
the group's conversations, replacing only on strictly newer `created_at`. -/
def lastMessageFor (s : Store) (userId : Nat) (convIds : List Nat) :
    Option LastMessageOut :=
  convIds.foldl
    (fun acc cid =>
      match latestFromRpc s userId cid with
      | none => acc
      | some m =>
        match acc with
        | none => some ⟨m.content, m.sender_type, m.created_at⟩
        | some b =>
          if b.created_at < m.created_at then
            some ⟨m.content, m.sender_type, m.created_at⟩
          else acc)
    none

/-- One entry of `formattedProjects` (lines 244–252). -/
structure ProjectEntry where
  id : Nat
  opportunity_id : Nat
  title : String
  company : String
  analyst_id : Nat
deriving DecidableEq

/-- The `formattedProjects` list of a group (lines 239–255): an application
survives exactly when its opportunity resolves and is owned by the group's
analyst. -/
def formattedProjectsFor (s : Store) (userId : Nat) (a : Nat) :
    List ProjectEntry :=
  (appsFetched s userId).filterMap (fun app =>
    match oppLookup s userId app.opportunity_id with
    | some opp =>
      if opp.analyst_id == a then
        some ⟨app.id, app.opportunity_id, opp.title, opp.company, opp.analyst_id⟩
      else none
    | none => none)

/-- JavaScript `custom_title || null`: the empty string is falsy. -/
def jsOrNullStr (t : Option String) : Option String :=
  match t with
  | some v => if v == "" then none else some v
  | none => none

/-- The chats a single group contributes (the body of the step 4 map,
lines 234–313). -/
def chatsForGroup (s : Store) (userId : Nat) (g : ConvGroup) : List ProjectChat :=
  let info := identityFor s (analystIdsOf s userId) g.analyst_id
  let convIds := convIdsFor (idsMapOf (convsOf s userId)) g.analyst_id
  let lastMsg := lastMessageFor s userId convIds
  let unread := convIds.foldl (fun n c => n + unreadCountOf s userId c) 0
  (formattedProjectsFor s userId g.analyst_id).map (fun p =>
    { project_id := p.id
      opportunity_id := p.opportunity_id
      opportunity :=
        ⟨p.opportunity_id, p.title, p.company, "active", p.analyst_id, p.analyst_id⟩
      analyst := ⟨info.name, p.company, info.avatar_url⟩
      conversation_id := g.id
      last_message_at := g.last_message_at
      lastMessage := lastMsg
      unread_count := unread
      custom_title := jsOrNullStr g.custom_title
      tags := g.tags.getD [] })

/-- The whole of `fetchCreatorChats` (`listConsolidatedThreads` in the
spec): on a conversations-fetch error the source returns `[]` (lines
88–91); otherwise the flattened per-group chats. -/
def fetchCreatorChats (s : Store) (userId : Nat) : List ProjectChat :=
  if s.convError then []
  else ((groupsOf (convsOf s userId)).map (chatsForGroup s userId)).flatten

/-! ## The bulk-operation trace of one call -/

/-- The seven possible bulk store operations of one `fetchCreatorChats`
call. -/
inductive OpKind where
  | conversations
  | analysts
  | profiles
  | applications
  | opportunities
  | unreadMessages
  | latestMessages
deriving DecidableEq

/-- One issued bulk operation: its kind and the id list passed to its
`in (...)` filter (or to the RPC); `[]` for operations whose filters use
only the actor id. -/
structure StoreOp where
  kind : OpKind
  inIds : List Nat
deriving DecidableEq

/-- The result of the initial conversations query: `none` on transport
error. -/
def convQuery (s : Store) (userId : Nat) : Option (List ConversationRow) :=
  if s.convError then none else some (convsOf s userId)

/-- The operations issued after a successful conversations fetch, given its
result rows and the `(applications || [])` result: each `in`-filtered fetch
is skipped when its id list is empty, exactly as in the source
(lines 137, 177, 195, 216). -/
def traceRest (convs : List ConversationRow) (apps : List ApplicationRow) :
    List StoreOp :=
  [⟨OpKind.conversations, []⟩]
    ++ (if (dedupFirst (convs.map (fun c => c.analyst_id))).isEmpty then [] else
        [⟨OpKind.analysts, dedupFirst (convs.map (fun c => c.analyst_id))⟩,
         ⟨OpKind.profiles, dedupFirst (convs.map (fun c => c.analyst_id))⟩])
    ++ [⟨OpKind.applications, []⟩]
    ++ (if (apps.map (fun a => a.opportunity_id)).isEmpty then [] else
        [⟨OpKind.opportunities, apps.map (fun a => a.opportunity_id)⟩])
    ++ (if ((idsMapOf convs).foldl (fun acc p => acc ++ p.2) []).isEmpty then [] else
        [⟨OpKind.unreadMessages, (idsMapOf convs).foldl (fun acc p => acc ++ p.2) []⟩])
    ++ (if ((idsMapOf convs).foldl (fun acc p => acc ++ p.2) []).isEmpty then [] else
        [⟨OpKind.latestMessages, (idsMapOf convs).foldl (fun acc p => acc ++ p.2) []⟩])

/-- The bulk operations one call issues: on a conversations error the
function returns at line 90, so only that one operation happened. -/
def trace (s : Store) (userId : Nat) : List StoreOp :=
  match convQuery s userId with
  | none => [⟨OpKind.conversations, []⟩]
  | some convs => traceRest convs (appsFetched s userId)

/-- The id list the operation of kind `k` was issued with, `none` when it
was not issued. -/
def filterIdsOf (s : Store) (userId : Nat) (k : OpKind) : Option (List Nat) :=
  ((trace s userId).find? (fun op => op.kind == k)).map (fun op => op.inIds)

/-- An operation kind "uses ids produced by a previous query" when the id
list it is issued with varies with store contents (every id a call feeds
into an `in` filter other than the actor id comes from a previous query's
result rows). -/
def kindIdsVary (k : OpKind) : Prop :=
  ∃ s₁ s₂ : Store, ∃ u ids₁ ids₂,
    filterIdsOf s₁ u k = some ids₁ ∧ filterIdsOf s₂ u k = some ids₂ ∧ ids₁ ≠ ids₂

/-! ## Claim-side (specification-worded) definitions -/

/-- One step of the `maxLastActivity` fold. -/
def maxStep (m : Option Nat) (c : ConversationRow) : Option Nat :=
  match m, c.last_message_at with
  | none, t => t
  | some v, some t => some (Nat.max v t)
  | some v, none => some v

/-- The maximum non-null `last_message_at` among a list of conversations. -/
def maxLastActivity (cs : List ConversationRow) : Option Nat :=
  cs.foldl maxStep none

/-- The first conversation in store-returned order achieving the maximal
non-null `last_message_at` (the first conversation outright when all are
null): proved below to be exactly the conversation the grouping loop draws
its canonical metadata from. -/
def canonicalSpec (cs : List ConversationRow) : Option ConversationRow :=
  match maxLastActivity cs with
  | none => cs.head?
  | some M => cs.find? (fun c => c.last_message_at == some M)

/-- Canonical-thread preference exactly as claim C1 words it: most recent
`last_activity_at` wins; ties broken by most recent `created_at`; remaining
ties by id ascending. -/
def claimPrefer (a b : ConversationRow) : ConversationRow :=
  if newerThan b.last_message_at a.last_message_at then b
  else if b.last_message_at = a.last_message_at ∧ a.created_at < b.created_at then b
  else if b.last_message_at = a.last_message_at ∧ b.created_at = a.created_at
      ∧ b.id < a.id then b
  else a

/-- The canonical thread id claim C1 asks for, over a group's conversation
list. -/
def claimCanonicalId (cs : List ConversationRow) : Option Nat :=
  (cs.foldl (fun acc c =>
    match acc with
    | none => some c
    | some a => some (claimPrefer a c)) none).map (fun c => c.id)

/-- The pairwise order claim C7 asserts on the output: canonical
`last_activity_at` descending, ties broken by counterpart id ascending. -/
def c7Before (x y : ProjectChat) : Bool :=
  match x.last_message_at, y.last_message_at with
  | some a, some b =>
    if a == b then decide (x.opportunity.analyst_id ≤ y.opportunity.analyst_id)
    else decide (b < a)
  | some _, none => true
  | none, some _ => false
  | none, none => decide (x.opportunity.analyst_id ≤ y.opportunity.analyst_id)

/-- Whether a chat list is ordered as claim C7 asserts. -/
def c7OrderedB : List ProjectChat → Bool
  | [] => true
  | [_] => true
  | x :: y :: rest => c7Before x y && c7OrderedB (y :: rest)

/-! ## Helper definitions used only to state and prove lemmas -/

/-- The grouping fold restricted to a single analyst's conversation list:
seed with the first row, then `updateGroup` with the rest. -/
def groupFoldOpt (cs : List ConversationRow) : Option ConvGroup :=
  match cs with
  | [] => none
  | c :: rest => some (rest.foldl updateGroup (seedGroup c))

/-- The champion row of the canonical-selection fold. -/
def canonChoose (b : ConversationRow) (cs : List ConversationRow) :
    ConversationRow :=
  cs.foldl
    (fun b c => if newerThan c.last_message_at b.last_message_at then c else b) b

/-- The canonical metadata a group carries. -/
def canonProjG (g : ConvGroup) :
    Nat × Option Nat × Option String × Option (List String) :=
  (g.id, g.last_message_at, g.custom_title, g.tags)

/-- The metadata of a conversation row that canonical selection copies. -/
def canonProjC (c : ConversationRow) :
    Nat × Option Nat × Option String × Option (List String) :=
  (c.id, c.last_message_at, c.custom_title, c.tags)

/-- A conversation row carrying a group's metadata, used to run the champion
fold from a group state. -/
def rowOf (g : ConvGroup) : ConversationRow :=
  ⟨g.id, g.analyst_id, g.creator_id, none, g.created_at, g.last_message_at,
   g.custom_title, g.tags⟩

/-! ## Concrete stores for counterexamples and witnesses -/

/-- The store with empty tables and no errors. -/
def emptyStore : Store :=
  { conversations := [], analysts := [], profiles := [], applications := [],
    opportunities := [], messages := [], convError := false,
    analystsError := false, profilesError := false,
    applicationsError := false, opportunitiesError := false,
    messagesError := false, rpcError := false }

/-- A conversation row with the fields the claims vary. -/
def mkConv (id analyst creator created : Nat) (last : Option Nat) :
    ConversationRow :=
  ⟨id, analyst, creator, none, created, last, none, none⟩

/-- Store for the C1 counterexample: analyst 1 has two conversations tied at
`last_message_at = 50`; the one listed first (id 5) was created earlier
(100) and has the larger id, the later one (id 3) was created more recently
(200). -/
def store1 : Store :=
  { emptyStore with
    conversations := [mkConv 5 1 7 100 (some 50), mkConv 3 1 7 200 (some 50)],
    applications := [⟨11, 7, 21, "approved", 0⟩],
    opportunities := [⟨21, "T", "C", 1, 1⟩] }

/-- Store for the C7 counterexample: analyst 1 owns a null-timestamp
conversation (sorted first under `DESC NULLS FIRST`) and one at 5; analyst
2 owns one at 10.  Both analysts have an eligible engagement. -/
def store7 : Store :=
  { emptyStore with
    conversations := [mkConv 10 1 7 0 none, mkConv 11 1 7 0 (some 5),
                      mkConv 20 2 7 0 (some 10)],
    applications := [⟨31, 7, 41, "approved", 0⟩, ⟨32, 7, 42, "approved", 0⟩],
    opportunities := [⟨41, "T1", "C1", 1, 1⟩, ⟨42, "T2", "C2", 2, 2⟩] }

/-- Stores for the C2 counterexample: `storeA`/`storeB` differ only in the
conversations table and get different analysts-fetch id lists;
`storeC`/`storeD` differ only in the applications table and get different
opportunities-fetch id lists. -/
def storeA : Store := { emptyStore with conversations := [mkConv 1 1 7 0 none] }

/-- See `storeA`. -/
def storeB : Store := { emptyStore with conversations := [mkConv 1 2 7 0 none] }

/-- See `storeA`. -/
def storeC : Store :=
  { emptyStore with applications := [⟨1, 7, 21, "approved", 0⟩] }

/-- See `storeA`. -/
def storeD : Store :=
  { emptyStore with applications := [⟨1, 7, 22, "approved", 0⟩] }

/-- Healthy store for the C6 counterexample: one conversation, an eligible
engagement, and an `analysts` row naming the counterpart "Maria". -/
def store6ok : Store :=
  { emptyStore with
    conversations := [mkConv 1 1 7 0 (some 5)],
    analysts := [⟨1, "Maria", "m", none⟩],
    applications := [⟨11, 7, 21, "approved", 0⟩],
    opportunities := [⟨21, "T", "C", 1, 1⟩] }

/-- The same store with the analysts bulk fetch failing. -/
def store6err : Store := { store6ok with analystsError := true }

/-- Store whose conversations all have null `last_message_at` (for the C9
witness). -/
def storeC9 : Store :=
  { emptyStore with
    conversations := [mkConv 4 1 7 0 none, mkConv 6 1 7 1 none] }

/-- A store whose conversations fetch fails (for the C6 witness). -/
def storeErr : Store := { emptyStore with convError := true }

/-- A small healthy store used by several witnesses: one analyst with two
conversations, one eligible engagement, one unread incoming message and one
read one. -/
def storeW : Store :=
  { emptyStore with
    conversations := [mkConv 1 1 7 10 (some 5), mkConv 2 1 7 11 (some 9)],
    analysts := [⟨1, "Ana", "a", none⟩],
    applications := [⟨11, 7, 21, "approved", 0⟩],
    opportunities := [⟨21, "T", "C", 1, 1⟩],
    messages := [⟨100, 1, "hi", "analyst", 1, false, 50⟩,
                 ⟨101, 2, "yo", "analyst", 1, true, 60⟩] }

/-- The messages of a counterpart group: those whose `conversation_id` lies
in the group's full thread-id set. -/
def groupMsgs (s : Store) (u a : Nat) : List MessageRow :=
  s.messages.filter (fun m =>
    (((convsOf s u).filter (fun c => c.analyst_id == a)).map
      (fun c => c.id)).contains m.conversation_id)

/-- Invariant of the group-level latest-message fold over the conversation
ids in `cs`: the accumulator is `none` exactly when those conversations have
no messages, and otherwise projects one of their maximal-`created_at`
messages. -/
def LastMsgInv (s : Store) (cs : List Nat) (acc : Option LastMessageOut) : Prop :=
  (acc = none → ∀ m ∈ s.messages, cs.contains m.conversation_id = false)
  ∧ ∀ lm, acc = some lm →
      ∃ m ∈ s.messages, cs.contains m.conversation_id = true
        ∧ lm = ⟨m.content, m.sender_type, m.created_at⟩
        ∧ ∀ x ∈ s.messages, cs.contains x.conversation_id = true →
            x.created_at ≤ m.created_at

/-- Whether an application is emitted as a chat for a group whose
counterpart is `a`: its opportunity resolves and is owned by `a`. -/
def emitsFor (s : Store) (u a : Nat) (app : ApplicationRow) : Bool :=
  match oppLookup s u app.opportunity_id with
  | some opp => opp.analyst_id == a
  | none => false

/-- The single chat `fetchCreatorChats` emits on `storeW` (used by
witnesses). -/
def chatW : ProjectChat :=
  { project_id := 11, opportunity_id := 21,
    opportunity := ⟨21, "T", "C", "active", 1, 1⟩,
    analyst := ⟨"Ana", "C", none⟩,
    conversation_id := 2, last_message_at := some 9,
    lastMessage := some ⟨"yo", "analyst", 60⟩,
    unread_count := 1, custom_title := none, tags := [] }

/-! ## Basic list lemmas -/

theorem beq_comm_nat (x y : Nat) : (x == y) = (y == x) := by
  by_cases h : x = y
  · subst h; rfl
  · simp [h, Ne.symm h]

theorem contains_eq_any (l : List Nat) (x : Nat) :
    l.contains x = l.any (fun y => y == x) := by
  induction l with
  | nil => rfl
  | cons a as ih =>
    simp only [List.contains_cons, List.any_cons, ← ih, beq_comm_nat x a]

theorem any_eq_find?_isSome {α : Type} (p : α → Bool) (l : List α) :
    l.any p = (l.find? p).isSome := by
  induction l with
  | nil => rfl
  | cons x xs ih =>
    by_cases h : p x
    · simp [List.any_cons, List.find?_cons, h]
    · simp [List.any_cons, List.find?_cons, h, ih]

theorem find?_map_pres {α : Type} (f : α → α) (p : α → Bool) (l : List α)
    (h : ∀ x, p (f x) = p x) :
    (l.map f).find? p = (l.find? p).map f := by
  induction l with
  | nil => rfl
  | cons x xs ih =>
    by_cases hx : p x
    · simp [List.find?_cons, h, hx]
    · simp [List.find?_cons, h, hx, ih]

/-! ## Grouping lemmas: reading the two maps back per analyst -/

theorem updateGroup_analyst (g : ConvGroup) (c : ConversationRow) :
    (updateGroup g c).analyst_id = g.analyst_id := by
  unfold updateGroup; split <;> rfl

theorem insertConv_find? (acc : List ConvGroup) (c : ConversationRow) (a : Nat) :
    (insertConv acc c).find? (fun g => g.analyst_id == a) =
      (if c.analyst_id = a then
        (match acc.find? (fun g => g.analyst_id == a) with
         | some g => some (updateGroup g c)
         | none => some (seedGroup c))
      else acc.find? (fun g => g.analyst_id == a)) := by
  unfold insertConv
  by_cases hmem : acc.any (fun g => g.analyst_id == c.analyst_id)
  · rw [if_pos hmem]
    have hpres : ∀ g : ConvGroup,
        (((if g.analyst_id == c.analyst_id then updateGroup g c else g).analyst_id == a))
          = (g.analyst_id == a) := by
      intro g
      by_cases h : g.analyst_id == c.analyst_id
      · simp [h, updateGroup_analyst]
      · simp [h]
    rw [find?_map_pres _ _ _ hpres]
    by_cases hca : c.analyst_id = a
    · subst hca
      rw [if_pos rfl]
      cases hf : acc.find? (fun g => g.analyst_id == c.analyst_id) with
      | none =>
        rw [any_eq_find?_isSome] at hmem
        rw [hf] at hmem
        simp at hmem
      | some g =>
        have hg := List.find?_some hf
        show some (if (g.analyst_id == c.analyst_id) = true then updateGroup g c else g)
          = some (updateGroup g c)
        rw [if_pos hg]
    · rw [if_neg hca]
      cases hf : acc.find? (fun g => g.analyst_id == a) with
      | none => simp
      | some g =>
        have hg := List.find?_some hf
        have : ¬ (g.analyst_id == c.analyst_id) = true := by
          intro h
          exact hca (((beq_iff_eq).1 h).symm.trans ((beq_iff_eq).1 hg))
        show some (if (g.analyst_id == c.analyst_id) = true then updateGroup g c else g)
          = some g
        rw [if_neg this]
  · rw [if_neg hmem]
    rw [List.find?_append]
    by_cases hca : c.analyst_id = a
    · subst hca
      have hnone : acc.find? (fun g => g.analyst_id == c.analyst_id) = none := by
        rw [any_eq_find?_isSome] at hmem
        cases hf : acc.find? (fun g => g.analyst_id == c.analyst_id) with
        | none => rfl
        | some g => rw [hf] at hmem; simp at hmem
      rw [if_pos rfl, hnone]
      simp [seedGroup, List.find?_cons]
    · rw [if_neg hca]
      have hseed : ((seedGroup c).analyst_id == a) = false := by
        simp [seedGroup, hca]
      cases hf : acc.find? (fun g => g.analyst_id == a) with
      | none => simp [List.find?_cons, hseed]
      | some g => simp

theorem foldl_insertConv_find? (convs : List ConversationRow) :
    ∀ (acc : List ConvGroup) (a : Nat),
      ((convs.foldl insertConv acc).find? (fun g => g.analyst_id == a)) =
        (match acc.find? (fun g => g.analyst_id == a) with
         | some g =>
           some ((convs.filter (fun c => c.analyst_id == a)).foldl updateGroup g)
         | none => groupFoldOpt (convs.filter (fun c => c.analyst_id == a))) := by
  induction convs with
  | nil =>
    intro acc a
    cases h : acc.find? (fun g => g.analyst_id == a) <;> simp [groupFoldOpt, h]
  | cons c convs ih =>
    intro acc a
    rw [List.foldl_cons, ih (insertConv acc c) a, insertConv_find? acc c a]
    by_cases hca : c.analyst_id = a
    · rw [if_pos hca]
      have hfil : (c :: convs).filter (fun x => x.analyst_id == a)
          = c :: convs.filter (fun x => x.analyst_id == a) := by
        simp [List.filter_cons, hca]
      rw [hfil]
      cases hf : acc.find? (fun g => g.analyst_id == a) with
      | none => simp [groupFoldOpt, List.foldl_cons]
      | some g => simp [List.foldl_cons]
    · rw [if_neg hca]
      have hfil : (c :: convs).filter (fun x => x.analyst_id == a)
          = convs.filter (fun x => x.analyst_id == a) := by
        simp [List.filter_cons, hca]
      rw [hfil]

theorem groupsOf_find? (convs : List ConversationRow) (a : Nat) :
    (groupsOf convs).find? (fun g => g.analyst_id == a) =
      groupFoldOpt (convs.filter (fun c => c.analyst_id == a)) := by
  unfold groupsOf
  rw [foldl_insertConv_find? convs [] a]
  rfl

theorem insertConvId_find? (m : List (Nat × List Nat)) (c : ConversationRow) (a : Nat) :
    (insertConvId m c).find? (fun p => p.1 == a) =
      (if c.analyst_id = a then
        (match m.find? (fun p => p.1 == a) with
         | some p => some (p.1, p.2 ++ [c.id])
         | none => some (c.analyst_id, [c.id]))
      else m.find? (fun p => p.1 == a)) := by
  unfold insertConvId
  by_cases hmem : m.any (fun p => p.1 == c.analyst_id)
  · rw [if_pos hmem]
    have hpres : ∀ p : Nat × List Nat,
        (((if p.1 == c.analyst_id then (p.1, p.2 ++ [c.id]) else p).1 == a))
          = (p.1 == a) := by
      intro p
      by_cases h : p.1 == c.analyst_id
      · simp [h]
      · simp [h]
    rw [find?_map_pres _ _ _ hpres]
    by_cases hca : c.analyst_id = a
    · subst hca
      rw [if_pos rfl]
      cases hf : m.find? (fun p => p.1 == c.analyst_id) with
      | none =>
        rw [any_eq_find?_isSome] at hmem
        rw [hf] at hmem
        simp at hmem
      | some p =>
        have hp := List.find?_some hf
        show some (if (p.1 == c.analyst_id) = true then (p.1, p.2 ++ [c.id]) else p)
          = some (p.1, p.2 ++ [c.id])
        rw [if_pos hp]
    · rw [if_neg hca]
      cases hf : m.find? (fun p => p.1 == a) with
      | none => simp
      | some p =>
        have hp := List.find?_some hf
        have : ¬ (p.1 == c.analyst_id) = true := by
          intro h
          exact hca (((beq_iff_eq).1 h).symm.trans ((beq_iff_eq).1 hp))
        show some (if (p.1 == c.analyst_id) = true then (p.1, p.2 ++ [c.id]) else p)
          = some p
        rw [if_neg this]
  · rw [if_neg hmem]
    rw [List.find?_append]
    by_cases hca : c.analyst_id = a
    · subst hca
      have hnone : m.find? (fun p => p.1 == c.analyst_id) = none := by
        rw [any_eq_find?_isSome] at hmem
        cases hf : m.find? (fun p => p.1 == c.analyst_id) with
        | none => rfl
        | some p => rw [hf] at hmem; simp at hmem
      rw [if_pos rfl, hnone]
      simp [List.find?_cons]
    · rw [if_neg hca]
      have hseed : (((c.analyst_id, [c.id]) : Nat × List Nat).1 == a) = false := by
        simp [hca]
      cases hf : m.find? (fun p => p.1 == a) with
      | none => simp [List.find?_cons, hseed]
      | some p => simp

theorem foldl_insertConvId_find? (convs : List ConversationRow) :
    ∀ (m : List (Nat × List Nat)) (a : Nat),
      ((convs.foldl insertConvId m).find? (fun p => p.1 == a)) =
        (match m.find? (fun p => p.1 == a) with
         | some p =>
           some (p.1, p.2 ++ (convs.filter (fun c => c.analyst_id == a)).map (fun c => c.id))
         | none =>
           if (convs.filter (fun c => c.analyst_id == a)).isEmpty then none
           else some (a, (convs.filter (fun c => c.analyst_id == a)).map (fun c => c.id))) := by
  induction convs with
  | nil =>
    intro m a
    cases h : m.find? (fun p => p.1 == a) <;> simp [h]
  | cons c convs ih =>
    intro m a
    rw [List.foldl_cons, ih (insertConvId m c) a, insertConvId_find? m c a]
    by_cases hca : c.analyst_id = a
    · rw [if_pos hca]
      have hfil : (c :: convs).filter (fun x => x.analyst_id == a)
          = c :: convs.filter (fun x => x.analyst_id == a) := by
        simp [List.filter_cons, hca]
      rw [hfil]
      cases hf : m.find? (fun p => p.1 == a) with
      | none => subst hca; simp
      | some p => simp

    · rw [if_neg hca]
      have hfil : (c :: convs).filter (fun x => x.analyst_id == a)
          = convs.filter (fun x => x.analyst_id == a) := by
        simp [List.filter_cons, hca]
      rw [hfil]

theorem convIdsFor_eq (convs : List ConversationRow) (a : Nat) :
    convIdsFor (idsMapOf convs) a =
      (convs.filter (fun c => c.analyst_id == a)).map (fun c => c.id) := by
  unfold convIdsFor idsMapOf
  rw [foldl_insertConvId_find? convs [] a]
  show (match (if (convs.filter (fun c => c.analyst_id == a)).isEmpty then none
      else some (a, (convs.filter (fun c => c.analyst_id == a)).map (fun c => c.id))) with
    | some p => p.2
    | none => ([] : List Nat)) = _
  by_cases he : (convs.filter (fun c => c.analyst_id == a)).isEmpty
  · rw [if_pos he]
    rw [List.isEmpty_iff] at he
    simp [he]
  · rw [if_neg he]

theorem insertConv_map_analyst (acc : List ConvGroup) (c : ConversationRow) :
    (insertConv acc c).map (fun g => g.analyst_id) =
      (if (acc.map (fun g => g.analyst_id)).contains c.analyst_id
       then acc.map (fun g => g.analyst_id)
       else acc.map (fun g => g.analyst_id) ++ [c.analyst_id]) := by
  have hany : ∀ (l : List ConvGroup) (p : Nat → Bool),
      (l.map (fun g => g.analyst_id)).any p = l.any (fun g => p g.analyst_id) := by
    intro l p
    induction l with
    | nil => rfl
    | cons g gs ih => simp [List.any_cons, ih]
  have hco : (acc.map (fun g => g.analyst_id)).contains c.analyst_id
      = acc.any (fun g => g.analyst_id == c.analyst_id) := by
    rw [contains_eq_any, hany]
  rw [hco]
  unfold insertConv
  by_cases hmem : acc.any (fun g => g.analyst_id == c.analyst_id)
  · rw [if_pos hmem, if_pos hmem, List.map_map]
    apply List.map_congr_left
    intro g _
    show (if (g.analyst_id == c.analyst_id) = true then updateGroup g c else g).analyst_id
      = g.analyst_id
    by_cases h : (g.analyst_id == c.analyst_id) = true
    · rw [if_pos h, updateGroup_analyst]
    · rw [if_neg h]
  · rw [if_neg hmem, if_neg hmem, List.map_append]
    rfl

theorem groupsOf_map_analyst (convs : List ConversationRow) :
    ∀ acc : List ConvGroup,
      (convs.foldl insertConv acc).map (fun g => g.analyst_id) =
        (convs.map (fun c => c.analyst_id)).foldl
          (fun l x => if l.contains x then l else l ++ [x])
          (acc.map (fun g => g.analyst_id)) := by
  induction convs with
  | nil => intro acc; rfl
  | cons c convs ih =>
    intro acc
    rw [List.foldl_cons, ih (insertConv acc c), List.map_cons, List.foldl_cons,
        insertConv_map_analyst acc c]

theorem groupsOf_analysts (convs : List ConversationRow) :
    (groupsOf convs).map (fun g => g.analyst_id)
      = dedupFirst (convs.map (fun c => c.analyst_id)) := by
  unfold groupsOf dedupFirst
  rw [groupsOf_map_analyst convs []]
  rfl

theorem dedupFirst_go_nodup (l : List Nat) :
    ∀ acc : List Nat, acc.Nodup →
      (l.foldl (fun acc x => if acc.contains x then acc else acc ++ [x]) acc).Nodup := by
  induction l with
  | nil => intro acc h; exact h
  | cons x xs ih =>
    intro acc h
    rw [List.foldl_cons]
    by_cases hc : acc.contains x
    · rw [if_pos hc]; exact ih acc h
    · rw [if_neg hc]
      apply ih
      have hx : x ∉ acc := by
        intro hmem
        exact hc (by simpa using hmem)
      simp [List.nodup_append, h, hx]

theorem dedupFirst_nodup (l : List Nat) : (dedupFirst l).Nodup :=
  dedupFirst_go_nodup l [] List.nodup_nil

theorem dedupFirst_go_mem (l : List Nat) :
    ∀ (acc : List Nat) (x : Nat),
      (x ∈ l.foldl (fun acc x => if acc.contains x then acc else acc ++ [x]) acc
        ↔ x ∈ acc ∨ x ∈ l) := by
  induction l with
  | nil => intro acc x; simp
  | cons y ys ih =>
    intro acc x
    rw [List.foldl_cons]
    by_cases hc : acc.contains y
    · rw [if_pos hc]
      rw [ih acc x]
      constructor
      · rintro (h | h)
        · exact Or.inl h
        · exact Or.inr (List.mem_cons_of_mem _ h)
      · rintro (h | h)
        · exact Or.inl h
        · rcases List.mem_cons.1 h with h | h
          · subst h; exact Or.inl (by simpa using hc)
          · exact Or.inr h
    · rw [if_neg hc]
      rw [ih (acc ++ [y]) x]
      simp only [List.mem_append, List.mem_singleton, List.mem_cons]
      tauto

theorem dedupFirst_mem (l : List Nat) (x : Nat) : x ∈ dedupFirst l ↔ x ∈ l := by
  unfold dedupFirst
  rw [dedupFirst_go_mem l [] x]
  simp

/-! ## Canonical-metadata characterisation -/

theorem canonChoose_cons (b c : ConversationRow) (cs : List ConversationRow) :
    canonChoose b (c :: cs)
      = canonChoose (if newerThan c.last_message_at b.last_message_at then c else b)
          cs := rfl

theorem canonChoose_proj_congr (cs : List ConversationRow) :
    ∀ b b' : ConversationRow, canonProjC b = canonProjC b' →
      canonProjC (canonChoose b cs) = canonProjC (canonChoose b' cs) := by
  induction cs with
  | nil => intro b b' h; exact h
  | cons c cs ih =>
    intro b b' h
    rw [canonChoose_cons, canonChoose_cons]
    have hlast : b.last_message_at = b'.last_message_at :=
      congrArg (fun p => p.2.1) h
    rw [hlast]
    by_cases hn : newerThan c.last_message_at b'.last_message_at
    · rw [if_pos hn, if_pos hn]
    · rw [if_neg hn, if_neg hn]
      exact ih b b' h

theorem foldl_updateGroup_char (cs : List ConversationRow) :
    ∀ g : ConvGroup,
      canonProjG (cs.foldl updateGroup g) = canonProjC (canonChoose (rowOf g) cs) := by
  induction cs with
  | nil => intro g; rfl
  | cons c cs ih =>
    intro g
    rw [List.foldl_cons, canonChoose_cons, ih (updateGroup g c)]
    have hrow : (rowOf g).last_message_at = g.last_message_at := rfl
    rw [hrow]
    by_cases hn : newerThan c.last_message_at g.last_message_at
    · rw [if_pos hn]
      apply canonChoose_proj_congr
      show canonProjC (rowOf (updateGroup g c)) = canonProjC c
      unfold updateGroup
      rw [if_pos hn]
      rfl
    · rw [if_neg hn]
      apply canonChoose_proj_congr
      show canonProjC (rowOf (updateGroup g c)) = canonProjC (rowOf g)
      unfold updateGroup
      rw [if_neg hn]

theorem maxLast_go_none (cs : List ConversationRow) :
    ∀ m : Option Nat, cs.foldl maxStep m = none →
      m = none ∧ ∀ c ∈ cs, c.last_message_at = none := by
  induction cs with
  | nil => intro m h; exact ⟨h, by intro c hc; cases hc⟩
  | cons c cs ih =>
    intro m h
    rw [List.foldl_cons] at h
    obtain ⟨hstep, hall⟩ := ih (maxStep m c) h
    have hm : m = none ∧ c.last_message_at = none := by
      cases m with
      | none =>
        cases hcl : c.last_message_at with
        | none => exact ⟨rfl, rfl⟩
        | some t => simp [maxStep, hcl] at hstep
      | some v =>
        exfalso
        cases hcl : c.last_message_at with
        | none => simp [maxStep, hcl] at hstep
        | some t => simp [maxStep, hcl] at hstep
    refine ⟨hm.1, ?_⟩
    intro x hx
    rcases List.mem_cons.1 hx with h1 | h1
    · subst h1; exact hm.2
    · exact hall x h1

theorem maxLast_go_bound (cs : List ConversationRow) :
    ∀ m M, cs.foldl maxStep m = some M →
      (∀ v, m = some v → v ≤ M) ∧
      (∀ c ∈ cs, ∀ t, c.last_message_at = some t → t ≤ M) := by
  induction cs with
  | nil =>
    intro m M h
    refine ⟨?_, by intro c hc; cases hc⟩
    intro v hv
    rw [hv] at h
    cases h
    exact Nat.le_refl _
  | cons c cs ih =>
    intro m M h
    rw [List.foldl_cons] at h
    obtain ⟨hacc, hrest⟩ := ih (maxStep m c) M h
    have hstepv : ∀ v, maxStep m c = some v → v ≤ M := hacc
    have hmv : ∀ v, m = some v → v ≤ M := by
      intro v hv
      subst hv
      cases hcl : c.last_message_at with
      | none => exact hstepv v (by simp [maxStep, hcl])
      | some t =>
        have := hstepv (Nat.max v t) (by simp [maxStep, hcl])
        exact Nat.le_trans (Nat.le_max_left v t) this
    have hcv : ∀ t, c.last_message_at = some t → t ≤ M := by
      intro t ht
      cases m with
      | none => exact hstepv t (by simp [maxStep, ht])
      | some v =>
        have := hstepv (Nat.max v t) (by simp [maxStep, ht])
        exact Nat.le_trans (Nat.le_max_right v t) this
    refine ⟨hmv, ?_⟩
    intro x hx t ht
    rcases List.mem_cons.1 hx with h1 | h1
    · subst h1; exact hcv t ht
    · exact hrest x h1 t ht

theorem maxLast_step2 (b c : ConversationRow) :
    maxStep (maxStep none b) c
      = maxStep none (if newerThan c.last_message_at b.last_message_at then c else b) := by
  cases hb : b.last_message_at with
  | none =>
    cases hc : c.last_message_at with
    | none => simp [maxStep, newerThan, hb, hc]
    | some t => simp [maxStep, newerThan, hb, hc]
  | some v =>
    cases hc : c.last_message_at with
    | none => simp [maxStep, newerThan, hb, hc]
    | some t =>
      by_cases hvt : v < t
      · simp [maxStep, newerThan, hb, hc, hvt, Nat.max_eq_right (Nat.le_of_lt hvt)]
      · simp [maxStep, newerThan, hb, hc, hvt, Nat.max_eq_left (Nat.le_of_not_lt hvt)]

theorem maxLast_step (b c : ConversationRow) (cs : List ConversationRow) :
    maxLastActivity (b :: c :: cs)
      = maxLastActivity
          ((if newerThan c.last_message_at b.last_message_at then c else b) :: cs) := by
  unfold maxLastActivity
  rw [List.foldl_cons, List.foldl_cons, List.foldl_cons, maxLast_step2]

theorem canonicalSpec_step (b c : ConversationRow) (cs : List ConversationRow) :
    canonicalSpec (b :: c :: cs)
      = canonicalSpec
          ((if newerThan c.last_message_at b.last_message_at then c else b) :: cs) := by
  have hM' := maxLast_step b c cs
  unfold canonicalSpec
  rw [← hM']
  cases hM : maxLastActivity (b :: c :: cs) with
  | none =>
    have hall := (maxLast_go_none (b :: c :: cs) none hM).2
    have hb := hall b (by simp)
    have hc := hall c (by simp)
    have hn : newerThan c.last_message_at b.last_message_at = false := by
      rw [hb, hc]; rfl
    simp [hn]
  | some M =>
    have hM2 : maxLastActivity
        ((if newerThan c.last_message_at b.last_message_at then c else b) :: cs)
          = some M := by rw [← hM', hM]
    by_cases hn : newerThan c.last_message_at b.last_message_at
    · rw [if_pos hn] at hM2 ⊢
      cases hc : c.last_message_at with
      | none =>
        rw [hc] at hn
        cases hb : b.last_message_at <;> simp [newerThan, hb] at hn
      | some t =>
        have ht : t ≤ M :=
          (maxLast_go_bound (c :: cs) none M hM2).2 c (by simp) t hc
        have hpb : (b.last_message_at == some M) = false := by
          cases hb : b.last_message_at with
          | none => rfl
          | some v =>
            rw [hb, hc] at hn
            have hvt : v < t := by simpa [newerThan] using hn
            have hne : v ≠ M := Nat.ne_of_lt (Nat.lt_of_lt_of_le hvt ht)
            simp [hne]
        simp only [List.find?_cons, hpb]
    · rw [if_neg hn] at hM2 ⊢
      cases hpb : (b.last_message_at == some M) with
      | true => simp only [List.find?_cons, hpb]
      | false =>
        have hpc : (c.last_message_at == some M) = false := by
          cases hc : c.last_message_at with
          | none => rfl
          | some t =>
            cases hb : b.last_message_at with
            | none =>
              rw [hb, hc] at hn
              simp [newerThan] at hn
            | some v =>
              rw [hb, hc] at hn
              have htv : t ≤ v := by simpa [newerThan, Nat.not_lt] using hn
              have hv : v ≤ M :=
                (maxLast_go_bound (b :: cs) none M hM2).2 b (by simp) v hb
              by_cases htM : t = M
              · exfalso
                subst htM
                have hvM : v = t := Nat.le_antisymm hv htv
                rw [hb, hvM] at hpb
                simp at hpb
              · simp [htM]
        simp only [List.find?_cons, hpb, hpc]

theorem canonicalSpec_eq_canonChoose (cs : List ConversationRow) :
    ∀ b, canonicalSpec (b :: cs) = some (canonChoose b cs) := by
  induction cs with
  | nil =>
    intro b
    cases hb : b.last_message_at with
    | none => simp [canonicalSpec, maxLastActivity, maxStep, canonChoose, hb]
    | some t => simp [canonicalSpec, maxLastActivity, maxStep, canonChoose, hb, List.find?_cons]
  | cons c cs ih =>
    intro b
    rw [canonicalSpec_step b c cs, canonChoose_cons]
    exact ih _

theorem group_canonical (convs : List ConversationRow) (a : Nat) :
    ((groupsOf convs).find? (fun g => g.analyst_id == a)).map canonProjG
      = (canonicalSpec (convs.filter (fun c => c.analyst_id == a))).map canonProjC := by
  rw [groupsOf_find?]
  cases hf : convs.filter (fun c => c.analyst_id == a) with
  | nil => rfl
  | cons c0 rest =>
    show (some (rest.foldl updateGroup (seedGroup c0))).map canonProjG = _
    rw [canonicalSpec_eq_canonChoose rest c0]
    rw [Option.map_some', Option.map_some']
    rw [foldl_updateGroup_char rest (seedGroup c0)]
    congr 1
    exact canonChoose_proj_congr rest (rowOf (seedGroup c0)) c0 rfl

/-! ## Sorting is a permutation; id-nodup transport; flattened id list -/

theorem insertSorted_perm (c : ConversationRow) (l : List ConversationRow) :
    (insertSorted c l).Perm (c :: l) := by
  induction l with
  | nil => exact List.Perm.refl _
  | cons d ds ih =>
    unfold insertSorted
    by_cases h : convBefore d.last_message_at c.last_message_at
    · rw [if_pos h]
      exact (ih.cons d).trans (List.Perm.swap c d ds)
    · rw [if_neg h]

theorem sortConvs_perm (l : List ConversationRow) : (sortConvs l).Perm l := by
  have go : ∀ (l acc : List ConversationRow),
      (l.foldl (fun acc c => insertSorted c acc) acc).Perm (l ++ acc) := by
    intro l
    induction l with
    | nil => intro acc; simp
    | cons c cl ih =>
      intro acc
      rw [List.foldl_cons]
      refine (ih (insertSorted c acc)).trans ?_
      refine (List.Perm.append_left cl (insertSorted_perm c acc)).trans ?_
      exact List.perm_middle
  simpa using go l []

theorem convsOf_ids_nodup (s : Store) (u : Nat)
    (h : (s.conversations.map (fun c => c.id)).Nodup) :
    ((convsOf s u).map (fun c => c.id)).Nodup := by
  have hperm :=
    (sortConvs_perm (s.conversations.filter (fun c => c.creator_id == u))).map
      (fun c => c.id)
  unfold convsOf
  rw [hperm.nodup_iff]
  exact List.Nodup.sublist
    ((List.filter_sublist s.conversations).map (fun c => c.id)) h

theorem foldl_append_snd (l : List (Nat × List Nat)) :
    ∀ init : List Nat,
      l.foldl (fun acc p => acc ++ p.2) init
        = init ++ (l.map (fun p => p.2)).flatten := by
  induction l with
  | nil => intro init; simp
  | cons p l ih =>
    intro init
    rw [List.foldl_cons, ih]
    simp

theorem mem_allConvIdsOf (s : Store) (u a x : Nat)
    (hx : x ∈ convIdsFor (idsMapOf (convsOf s u)) a) :
    x ∈ allConvIdsOf s u := by
  unfold allConvIdsOf
  rw [foldl_append_snd]
  simp only [List.nil_append, List.mem_flatten]
  unfold convIdsFor at hx
  cases hf : (idsMapOf (convsOf s u)).find? (fun p => p.1 == a) with
  | none => rw [hf] at hx; cases hx
  | some p =>
    rw [hf] at hx
    exact ⟨p.2, List.mem_map_of_mem _ (List.mem_of_find?_eq_some hf), hx⟩

/-! ## Closed forms for the issued-operation id lists -/

theorem filterIdsOf_conversations (s : Store) (u : Nat) :
    filterIdsOf s u OpKind.conversations = some [] := by
  unfold filterIdsOf trace
  cases hq : convQuery s u with
  | none => rfl
  | some convs =>
    unfold traceRest
    cases h1 : (dedupFirst (convs.map (fun c => c.analyst_id))).isEmpty
      <;> cases h2 : ((appsFetched s u).map (fun a => a.opportunity_id)).isEmpty
      <;> cases h3 : ((idsMapOf convs).foldl (fun acc p => acc ++ p.2) []).isEmpty
      <;> simp only [h1, h2, h3]
      <;> rfl

theorem filterIdsOf_applications (s : Store) (u : Nat) :
    filterIdsOf s u OpKind.applications
      = (if s.convError then none else some []) := by
  unfold filterIdsOf trace convQuery
  cases hce : s.convError with
  | true => rfl
  | false =>
    show ((traceRest (convsOf s u) (appsFetched s u)).find?
        (fun op => op.kind == OpKind.applications)).map (fun op => op.inIds)
      = some []
    unfold traceRest
    cases h1 : (dedupFirst ((convsOf s u).map (fun c => c.analyst_id))).isEmpty
      <;> cases h2 : ((appsFetched s u).map (fun a => a.opportunity_id)).isEmpty
      <;> cases h3 : ((idsMapOf (convsOf s u)).foldl (fun acc p => acc ++ p.2) []).isEmpty
      <;> first
          | (simp only [h1, h2, h3]; rfl)
          | rfl

theorem filterIdsOf_analysts (s : Store) (u : Nat) :
    filterIdsOf s u OpKind.analysts =
      (match convQuery s u with
       | none => none
       | some convs =>
         if (dedupFirst (convs.map (fun c => c.analyst_id))).isEmpty then none
         else some (dedupFirst (convs.map (fun c => c.analyst_id)))) := by
  unfold filterIdsOf trace
  cases hq : convQuery s u with
  | none => rfl
  | some convs =>
    unfold traceRest
    cases h1 : (dedupFirst (convs.map (fun c => c.analyst_id))).isEmpty
      <;> cases h2 : ((appsFetched s u).map (fun a => a.opportunity_id)).isEmpty
      <;> cases h3 : ((idsMapOf convs).foldl (fun acc p => acc ++ p.2) []).isEmpty
      <;> simp only [h1, h2, h3]
      <;> rfl

theorem filterIdsOf_profiles (s : Store) (u : Nat) :
    filterIdsOf s u OpKind.profiles =
      (match convQuery s u with
       | none => none
       | some convs =>
         if (dedupFirst (convs.map (fun c => c.analyst_id))).isEmpty then none
         else some (dedupFirst (convs.map (fun c => c.analyst_id)))) := by
  unfold filterIdsOf trace
  cases hq : convQuery s u with
  | none => rfl
  | some convs =>
    unfold traceRest
    cases h1 : (dedupFirst (convs.map (fun c => c.analyst_id))).isEmpty
      <;> cases h2 : ((appsFetched s u).map (fun a => a.opportunity_id)).isEmpty
      <;> cases h3 : ((idsMapOf convs).foldl (fun acc p => acc ++ p.2) []).isEmpty
      <;> simp only [h1, h2, h3]
      <;> rfl

theorem filterIdsOf_unread (s : Store) (u : Nat) :
    filterIdsOf s u OpKind.unreadMessages =
      (match convQuery s u with
       | none => none
       | some convs =>
         if ((idsMapOf convs).foldl (fun acc p => acc ++ p.2) []).isEmpty then none
         else some ((idsMapOf convs).foldl (fun acc p => acc ++ p.2) [])) := by
  unfold filterIdsOf trace
  cases hq : convQuery s u with
  | none => rfl
  | some convs =>
    unfold traceRest
    cases h1 : (dedupFirst (convs.map (fun c => c.analyst_id))).isEmpty
      <;> cases h2 : ((appsFetched s u).map (fun a => a.opportunity_id)).isEmpty
      <;> cases h3 : ((idsMapOf convs).foldl (fun acc p => acc ++ p.2) []).isEmpty
      <;> simp only [h1, h2, h3]
      <;> rfl

theorem filterIdsOf_latest (s : Store) (u : Nat) :
    filterIdsOf s u OpKind.latestMessages =
      (match convQuery s u with
       | none => none
       | some convs =>
         if ((idsMapOf convs).foldl (fun acc p => acc ++ p.2) []).isEmpty then none
         else some ((idsMapOf convs).foldl (fun acc p => acc ++ p.2) [])) := by
  unfold filterIdsOf trace
  cases hq : convQuery s u with
  | none => rfl
  | some convs =>
    unfold traceRest
    cases h1 : (dedupFirst (convs.map (fun c => c.analyst_id))).isEmpty
      <;> cases h2 : ((appsFetched s u).map (fun a => a.opportunity_id)).isEmpty
      <;> cases h3 : ((idsMapOf convs).foldl (fun acc p => acc ++ p.2) []).isEmpty
      <;> simp only [h1, h2, h3]
      <;> rfl

theorem filterIdsOf_opportunities (s : Store) (u : Nat) :
    filterIdsOf s u OpKind.opportunities =
      (if s.convError then none else
       if ((appsFetched s u).map (fun a => a.opportunity_id)).isEmpty then none
       else some ((appsFetched s u).map (fun a => a.opportunity_id))) := by
  unfold filterIdsOf trace convQuery
  cases hce : s.convError with
  | true => rfl
  | false =>
    show ((traceRest (convsOf s u) (appsFetched s u)).find?
        (fun op => op.kind == OpKind.opportunities)).map (fun op => op.inIds)
      = (if ((appsFetched s u).map (fun a => a.opportunity_id)).isEmpty then none
         else some ((appsFetched s u).map (fun a => a.opportunity_id)))
    unfold traceRest
    cases h1 : (dedupFirst ((convsOf s u).map (fun c => c.analyst_id))).isEmpty
      <;> cases h2 : ((appsFetched s u).map (fun a => a.opportunity_id)).isEmpty
      <;> cases h3 : ((idsMapOf (convsOf s u)).foldl (fun acc p => acc ++ p.2) []).isEmpty
      <;> first
          | (simp only [h1, h2, h3]; rfl)
          | rfl

theorem trace_length_le (s : Store) (u : Nat) : (trace s u).length ≤ 7 := by
  unfold trace
  cases hq : convQuery s u with
  | none =>
    show [(⟨OpKind.conversations, []⟩ : StoreOp)].length ≤ 7
    decide
  | some convs =>
    unfold traceRest
    cases h1 : (dedupFirst (convs.map (fun c => c.analyst_id))).isEmpty
      <;> cases h2 : ((appsFetched s u).map (fun a => a.opportunity_id)).isEmpty
      <;> cases h3 : ((idsMapOf convs).foldl (fun acc p => acc ++ p.2) []).isEmpty
      <;> simp only [h1, h2, h3]
      <;> simp [List.length_append]

/-! ## Claim C1 -/

/-- C1 counterexample: in `store1` analyst 1's two conversations tie at
`last_message_at = 50`; the grouping loop keeps the first store-returned row
(id 5, created at 100), while the claim's tie rule (most recently created,
equivalently id ascending) selects id 3 (created at 200).  The emitted
chat's canonical `conversation_id` is 5, not 3. -/
theorem c1_counterexample :
    (fetchCreatorChats store1 7).map (fun ch => ch.conversation_id) = [5]
      ∧ claimCanonicalId ((convsOf store1 7).filter (fun c => c.analyst_id == 1))
          = some 3 :=
  ⟨rfl, rfl⟩

/-- C1 (amended): for every store, actor and counterpart, the group's
canonical metadata (id, last_activity_at, custom title, tags) is that of
the first conversation in store-returned order whose `last_message_at`
attains the group's maximal non-null value (the first conversation outright
when all are null); ties in `last_activity_at` are therefore broken by
store-returned position, not by creation time or id. -/
theorem c1_amended (s : Store) (u a : Nat) :
    ((groupsOf (convsOf s u)).find? (fun g => g.analyst_id == a)).map canonProjG
      = (canonicalSpec ((convsOf s u).filter (fun c => c.analyst_id == a))).map
          canonProjC :=
  group_canonical (convsOf s u) a

/-! ## Claim C9 -/

/-- C9: a conversation with null `last_message_at` never replaces the
group's canonical conversation; a conversation with non-null
`last_message_at` always replaces a canonical whose `last_message_at` is
null; hence for a group all of whose conversations have null
`last_message_at` the canonical id is that of the first such conversation
in store-returned order. -/
theorem c9_null_semantics :
    (∀ (g : ConvGroup) (c : ConversationRow),
        c.last_message_at = none → updateGroup g c = g)
    ∧ (∀ (g : ConvGroup) (c : ConversationRow) (t : Nat),
        g.last_message_at = none → c.last_message_at = some t →
          canonProjG (updateGroup g c) = canonProjC c)
    ∧ (∀ (s : Store) (u a : Nat),
        (∀ c ∈ (convsOf s u).filter (fun c => c.analyst_id == a),
            c.last_message_at = none) →
          ((groupsOf (convsOf s u)).find? (fun g => g.analyst_id == a)).map
              (fun g => g.id)
            = (((convsOf s u).filter (fun c => c.analyst_id == a)).head?).map
                (fun c => c.id)) := by
  refine ⟨?_, ?_, ?_⟩
  · intro g c hc
    unfold updateGroup
    rw [hc]
    rfl
  · intro g c t hg hc
    simp [updateGroup, canonProjG, canonProjC, newerThan, hg, hc]
  · intro s u a hall
    have hmaxnil : ∀ (cs : List ConversationRow),
        (∀ c ∈ cs, c.last_message_at = none) → maxLastActivity cs = none := by
      intro cs
      induction cs with
      | nil => intro _; rfl
      | cons c cs ih =>
        intro h
        unfold maxLastActivity at ih ⊢
        rw [List.foldl_cons]
        have hc := h c (by simp)
        have hstep : maxStep none c = none := by simp [maxStep, hc]
        rw [hstep]
        exact ih (fun x hx => h x (List.mem_cons_of_mem _ hx))
    have hcanon : canonicalSpec ((convsOf s u).filter (fun c => c.analyst_id == a))
        = ((convsOf s u).filter (fun c => c.analyst_id == a)).head? := by
      unfold canonicalSpec
      rw [hmaxnil _ hall]
    have h := group_canonical (convsOf s u) a
    have hid : ∀ (o : Option ConvGroup),
        o.map (fun g => g.id) = (o.map canonProjG).map (fun p => p.1) := by
      intro o; cases o <;> rfl
    have hid2 : ∀ (o : Option ConversationRow),
        (o.map canonProjC).map (fun p => p.1) = o.map (fun c => c.id) := by
      intro o; cases o <;> rfl
    rw [hid, h, hid2, hcanon]

/-- Witness for C9: a null row does not displace a canonical at 5; a row at
9 displaces a null canonical; on the all-null store `storeC9` the canonical
id is the first store-returned conversation's. -/
theorem c9_witness :
    updateGroup (seedGroup (mkConv 1 1 7 0 (some 5))) (mkConv 2 1 7 3 none)
        = seedGroup (mkConv 1 1 7 0 (some 5))
    ∧ canonProjG (updateGroup (seedGroup (mkConv 1 1 7 0 none))
          (mkConv 2 1 7 3 (some 9)))
        = canonProjC (mkConv 2 1 7 3 (some 9))
    ∧ ((groupsOf (convsOf storeC9 7)).find? (fun g => g.analyst_id == 1)).map
          (fun g => g.id)
        = (((convsOf storeC9 7).filter (fun c => c.analyst_id == 1)).head?).map
            (fun c => c.id) :=
  ⟨c9_null_semantics.1 _ _ rfl,
   c9_null_semantics.2.1 _ _ 9 rfl rfl,
   c9_null_semantics.2.2 storeC9 7 1 (by decide)⟩

/-! ## Claim C2 -/

/-- C2 counterexample: it is not true that at most one operation kind is
issued with an id list that varies with prior query results: the analysts
fetch (ids collected from the conversations query) and the opportunities
fetch (ids collected from the applications query) both vary, witnessed by
the store pairs `storeA`/`storeB` and `storeC`/`storeD`. -/
theorem c2_counterexample :
    ¬ (∀ k₁ k₂ : OpKind, kindIdsVary k₁ → kindIdsVary k₂ → k₁ = k₂) := by
  intro h
  have h1 : kindIdsVary OpKind.analysts :=
    ⟨storeA, storeB, 7, [1], [2], rfl, rfl, by decide⟩
  have h2 : kindIdsVary OpKind.opportunities :=
    ⟨storeC, storeD, 7, [21], [22], rfl, rfl, by decide⟩
  exact absurd (h OpKind.analysts OpKind.opportunities h1 h2) (by decide)

/-- C2 (amended): one call issues at most 7 bulk operations; the
conversations and applications fetches carry no id list; the analysts,
profiles, unread-messages and latest-messages id lists are functions of the
initial conversations query's result alone; and the opportunities fetch is
the only operation whose id list comes from a query other than the initial
conversations fetch — it is a function of the applications result. -/
theorem c2_amended :
    (∀ (s : Store) (u : Nat), (trace s u).length ≤ 7)
    ∧ (∀ (s : Store) (u : Nat) (ids : List Nat),
        (filterIdsOf s u OpKind.conversations = some ids
          ∨ filterIdsOf s u OpKind.applications = some ids) → ids = [])
    ∧ (∀ (s₁ s₂ : Store) (u : Nat), convQuery s₁ u = convQuery s₂ u →
        ∀ k : OpKind,
          (k = OpKind.analysts ∨ k = OpKind.profiles
            ∨ k = OpKind.unreadMessages ∨ k = OpKind.latestMessages) →
          filterIdsOf s₁ u k = filterIdsOf s₂ u k)
    ∧ (∀ (s₁ s₂ : Store) (u : Nat),
        s₁.convError = false → s₂.convError = false →
        appsFetched s₁ u = appsFetched s₂ u →
          filterIdsOf s₁ u OpKind.opportunities
            = filterIdsOf s₂ u OpKind.opportunities) := by
  refine ⟨trace_length_le, ?_, ?_, ?_⟩
  · intro s u ids h
    rcases h with h | h
    · rw [filterIdsOf_conversations] at h
      exact (Option.some_inj.1 h).symm
    · rw [filterIdsOf_applications] at h
      cases hce : s.convError with
      | true => rw [hce] at h; simp at h
      | false =>
        rw [hce] at h
        simp only [Bool.false_eq_true, if_false] at h
        exact (Option.some_inj.1 h).symm
  · intro s₁ s₂ u hq k hk
    rcases hk with h | h | h | h <;> subst h
    · rw [filterIdsOf_analysts, filterIdsOf_analysts, hq]
    · rw [filterIdsOf_profiles, filterIdsOf_profiles, hq]
    · rw [filterIdsOf_unread, filterIdsOf_unread, hq]
    · rw [filterIdsOf_latest, filterIdsOf_latest, hq]
  · intro s₁ s₂ u h1 h2 happ
    rw [filterIdsOf_opportunities, filterIdsOf_opportunities, h1, h2, happ]

/-- Witness for C2: the bound and the determinations applied at concrete
stores. -/
theorem c2_witness :
    (trace storeW 7).length ≤ 7
    ∧ ([] : List Nat) = []
    ∧ filterIdsOf storeA 7 OpKind.analysts = filterIdsOf storeA 7 OpKind.analysts
    ∧ filterIdsOf storeC 7 OpKind.opportunities
        = filterIdsOf storeC 7 OpKind.opportunities :=
  ⟨c2_amended.1 storeW 7,
   c2_amended.2.1 storeW 7 [] (Or.inl rfl),
   c2_amended.2.2.1 storeA storeA 7 rfl OpKind.analysts (Or.inl rfl),
   c2_amended.2.2.2 storeC storeC 7 rfl rfl rfl⟩

/-! ## Claim C6 -/

/-- C6 counterexample: with the analysts bulk fetch failing (`store6err`)
the call surfaces no aggregation-level failure: it returns a non-empty
consolidated list built from the operations that did succeed — the
counterpart silently degrades to the sentinel identity — and that list
differs from the healthy run on `store6ok`. -/
theorem c6_counterexample :
    fetchCreatorChats store6err 7 ≠ []
      ∧ fetchCreatorChats store6err 7 ≠ fetchCreatorChats store6ok 7
      ∧ store6err = { store6ok with analystsError := true } :=
  ⟨by decide, by decide, rfl⟩

/-! The amended C6 theorem and its witness need helper lemmas stated later
in the file, so they appear at the very end. -/

/-! ## Claim C7 -/

/-- C7 counterexample: on `store7` the two emitted chats carry canonical
last activity 5 then 10 — not descending (and not reordered by counterpart
id): the function applies no final sort. -/
theorem c7_counterexample :
    (fetchCreatorChats store7 7).map (fun ch => ch.last_message_at)
        = [some 5, some 10]
      ∧ c7OrderedB (fetchCreatorChats store7 7) = false :=
  ⟨rfl, by decide⟩

theorem flatten_map_by_keys {β : Type} (l : List ConvGroup)
    (f : ConvGroup → List β) (hnd : (l.map (fun g => g.analyst_id)).Nodup) :
    (l.map f).flatten
      = ((l.map (fun g => g.analyst_id)).map (fun a =>
          match l.find? (fun g => g.analyst_id == a) with
          | some g => f g
          | none => [])).flatten := by
  induction l with
  | nil => rfl
  | cons g l ih =>
    have hnd2 : (g.analyst_id :: l.map (fun g => g.analyst_id)).Nodup := by
      simpa using hnd
    obtain ⟨hgnot, hndtail⟩ := List.nodup_cons.1 hnd2
    simp only [List.map_cons, List.flatten_cons]
    have hhead : List.find? (fun x => x.analyst_id == g.analyst_id) (g :: l)
        = some g := by
      simp [List.find?_cons]
    rw [hhead]
    congr 1
    rw [ih hndtail]
    congr 1
    apply List.map_congr_left
    intro a ha
    have hne : ¬ (g.analyst_id == a) = true := by
      intro hx
      exact hgnot (((beq_iff_eq).1 hx) ▸ ha)
    have hstep : List.find? (fun x => x.analyst_id == a) (g :: l)
        = List.find? (fun x => x.analyst_id == a) l := by
      simp [List.find?_cons, hne]
    rw [hstep]

/-- C7 (amended): the function applies no final sort: its output is the
concatenation, one block per counterpart in the order of each counterpart's
first conversation in the store-returned list (which the query orders by
`last_message_at` descending with nulls first), of that counterpart's
chats. -/
theorem c7_amended (s : Store) (u : Nat) (h : s.convError = false) :
    fetchCreatorChats s u
      = ((dedupFirst ((convsOf s u).map (fun c => c.analyst_id))).map (fun a =>
          match (groupsOf (convsOf s u)).find? (fun g => g.analyst_id == a) with
          | some g => chatsForGroup s u g
          | none => [])).flatten := by
  unfold fetchCreatorChats
  rw [h]
  show ((groupsOf (convsOf s u)).map (chatsForGroup s u)).flatten = _
  have hnd : ((groupsOf (convsOf s u)).map (fun g => g.analyst_id)).Nodup := by
    rw [groupsOf_analysts]
    exact dedupFirst_nodup _
  rw [flatten_map_by_keys (groupsOf (convsOf s u)) (chatsForGroup s u) hnd,
      groupsOf_analysts]

/-- Witness for C7: the amended characterisation evaluated on `store7`. -/
theorem c7_witness :
    fetchCreatorChats store7 7
      = ((dedupFirst ((convsOf store7 7).map (fun c => c.analyst_id))).map (fun a =>
          match (groupsOf (convsOf store7 7)).find? (fun g => g.analyst_id == a) with
          | some g => chatsForGroup store7 7 g
          | none => [])).flatten :=
  c7_amended store7 7 rfl

/-! ## Claim C8 -/

theorem find?_filter_ids {α : Type} (key : α → Nat) (l : List α) (ids : List Nat)
    (a : Nat) (ha : ids.contains a = true) :
    (l.filter (fun r => ids.contains (key r))).find? (fun r => key r == a)
      = l.find? (fun r => key r == a) := by
  induction l with
  | nil => rfl
  | cons r l ih =>
    by_cases hk : (key r == a) = true
    · have hc : ids.contains (key r) = true := by
        rw [(beq_iff_eq).1 hk]; exact ha
      rw [List.filter_cons, if_pos hc]
      simp [List.find?_cons, hk]
    · rw [List.filter_cons]
      by_cases hc : ids.contains (key r) = true
      · rw [if_pos hc]
        simp only [List.find?_cons]
        rw [show (key r == a) = false from Bool.eq_false_iff.2 hk]
        exact ih
      · rw [if_neg hc]
        rw [ih]
        have : List.find? (fun x => key x == a) (r :: l)
            = List.find? (fun x => key x == a) l := by
          simp [List.find?_cons, show (key r == a) = false from Bool.eq_false_iff.2 hk]
        rw [this]

/-- C8: for every counterpart id among the fetched conversations' distinct
analyst ids, the resolved display identity is the `analysts` row when one
exists, else the `profiles` row when one exists, else the sentinel
("Analista") — and an id present in neither table resolves to the sentinel
rather than failing (the resolver is total). -/
theorem c8_identity (s : Store) (u a : Nat)
    (ha : s.analystsError = false) (hp : s.profilesError = false)
    (hmem : a ∈ analystIdsOf s u) :
    identityFor s (analystIdsOf s u) a =
      (match s.analysts.find? (fun r => r.id == a) with
       | some r => ⟨r.name, r.email, r.avatar_url⟩
       | none =>
         match s.profiles.find? (fun p => p.id == a) with
         | some p => ⟨p.full_name, p.email, p.avatar_url⟩
         | none => ⟨"Analista", "", none⟩) := by
  unfold identityFor
  have hc : (analystIdsOf s u).contains a = true := by simpa using hmem
  rw [if_pos hc,
      if_neg (show ¬ s.analystsError = true by simp [ha]),
      if_neg (show ¬ s.profilesError = true by simp [hp]),
      find?_filter_ids (fun r => r.id) s.analysts _ a hc,
      find?_filter_ids (fun r => r.id) s.profiles _ a hc]

/-- Witness for C8: on `storeW`, analyst id 1 resolves to its `analysts`
row. -/
theorem c8_witness :
    identityFor storeW (analystIdsOf storeW 7) 1 =
      (match storeW.analysts.find? (fun r => r.id == 1) with
       | some r => (⟨r.name, r.email, r.avatar_url⟩ : AnalystInfo)
       | none =>
         match storeW.profiles.find? (fun p => p.id == 1) with
         | some p => (⟨p.full_name, p.email, p.avatar_url⟩ : AnalystInfo)
         | none => (⟨"Analista", "", none⟩ : AnalystInfo)) :=
  c8_identity storeW 7 1 rfl rfl (by decide)

/-! ## Output membership structure -/

theorem mem_fetchCreatorChats (s : Store) (u : Nat) (chat : ProjectChat) :
    chat ∈ fetchCreatorChats s u ↔
      s.convError = false
        ∧ ∃ g ∈ groupsOf (convsOf s u), chat ∈ chatsForGroup s u g := by
  unfold fetchCreatorChats
  cases hce : s.convError with
  | true => simp
  | false => simp [List.mem_flatten]

theorem chatsForGroup_fields (s : Store) (u : Nat) (g : ConvGroup)
    (chat : ProjectChat) (h : chat ∈ chatsForGroup s u g) :
    chat.opportunity.analyst_id = g.analyst_id
    ∧ chat.conversation_id = g.id
    ∧ chat.unread_count = (convIdsFor (idsMapOf (convsOf s u)) g.analyst_id).foldl
        (fun n c => n + unreadCountOf s u c) 0
    ∧ chat.lastMessage
        = lastMessageFor s u (convIdsFor (idsMapOf (convsOf s u)) g.analyst_id)
    ∧ ∃ app ∈ appsFetched s u, chat.project_id = app.id
        ∧ chat.opportunity_id = app.opportunity_id
        ∧ ∃ opp, oppLookup s u app.opportunity_id = some opp
            ∧ opp.analyst_id = g.analyst_id := by
  simp only [chatsForGroup, List.mem_map] at h
  obtain ⟨p, hp, hchat⟩ := h
  subst hchat
  simp only [formattedProjectsFor, List.mem_filterMap] at hp
  obtain ⟨app, happ, hf⟩ := hp
  cases ho : oppLookup s u app.opportunity_id with
  | none => simp only [ho] at hf; cases hf
  | some opp =>
    simp only [ho] at hf
    by_cases he : (opp.analyst_id == g.analyst_id) = true
    · rw [if_pos he] at hf
      cases hf
      refine ⟨(beq_iff_eq).1 he, rfl, rfl, rfl, app, happ, rfl, rfl, opp, ho,
        (beq_iff_eq).1 he⟩
    · rw [if_neg he] at hf; cases hf

/-! ## Claim C3 -/

theorem foldl_add_counts (f : Nat → Nat) (l : List Nat) :
    ∀ init : Nat, l.foldl (fun n c => n + f c) init = init + (l.map f).sum := by
  induction l with
  | nil => intro init; simp
  | cons c l ih =>
    intro init
    rw [List.foldl_cons, ih]
    simp [Nat.add_assoc]

theorem unreadCountOf_eq (s : Store) (u c : Nat)
    (hc : (allConvIdsOf s u).contains c = true)
    (hne : (allConvIdsOf s u).isEmpty = false)
    (herr : s.messagesError = false) :
    unreadCountOf s u c
      = s.messages.countP (fun m =>
          (m.conversation_id == c) && (!m.read && (m.sender_id != u))) := by
  unfold unreadCountOf unreadMsgsOf
  rw [hne, herr]
  show (s.messages.filter (fun m =>
      (allConvIdsOf s u).contains m.conversation_id
        && !m.read && (m.sender_id != u))).countP (fun m => m.conversation_id == c)
    = _
  rw [List.countP_filter]
  apply List.countP_congr
  intro m _
  by_cases hm : (m.conversation_id == c) = true
  · have hcm : (allConvIdsOf s u).contains m.conversation_id = true := by
      rw [(beq_iff_eq).1 hm]; exact hc
    have hmem : m.conversation_id ∈ allConvIdsOf s u := by simpa using hcm
    simp [hm, hcm, hmem, Bool.and_assoc]
  · simp [hm]

theorem countP_or_disjoint {α : Type} (l : List α) (p q : α → Bool)
    (hdis : ∀ m, ¬(p m = true ∧ q m = true)) :
    l.countP (fun m => p m || q m) = l.countP p + l.countP q := by
  induction l with
  | nil => rfl
  | cons a l ih =>
    rw [List.countP_cons, List.countP_cons, List.countP_cons, ih]
    by_cases hp : p a = true
    · have hq : ¬ q a = true := fun hq => hdis a ⟨hp, hq⟩
      simp [hp, hq]
      omega
    · by_cases hq : q a = true
      · simp [hp, hq]
        omega
      · simp [hp, hq]

theorem sum_countP_by_key (ids : List Nat) (l : List MessageRow)
    (p : MessageRow → Bool) (hnd : ids.Nodup) :
    ((ids.map (fun c =>
        l.countP (fun m => (m.conversation_id == c) && p m))).sum)
      = l.countP (fun m => ids.contains m.conversation_id && p m) := by
  induction ids with
  | nil =>
    simp only [List.map_nil, List.sum_nil]
    have : l.countP (fun m => ([] : List Nat).contains m.conversation_id && p m)
        = l.countP (fun _ => false) := by
      apply List.countP_congr
      intro m _
      simp
    rw [this]
    simp [List.countP_eq_length_filter]
  | cons c ids ih =>
    obtain ⟨hc, hndt⟩ := List.nodup_cons.1 hnd
    rw [List.map_cons, List.sum_cons, ih hndt]
    have hsplit : l.countP (fun m => (c :: ids).contains m.conversation_id && p m)
        = l.countP (fun m =>
            ((m.conversation_id == c) && p m)
              || (ids.contains m.conversation_id && p m)) := by
      apply List.countP_congr
      intro m _
      rw [List.contains_cons]
      by_cases h1 : (m.conversation_id == c) = true
        <;> by_cases h2 : ids.contains m.conversation_id = true
        <;> by_cases h3 : p m = true
        <;> simp [h1, h2, h3]
    rw [hsplit, countP_or_disjoint]
    intro m ⟨h1, h2⟩
    have hmc : m.conversation_id = c := (beq_iff_eq).1 (by
      cases hb : (m.conversation_id == c) with
      | true => rfl
      | false => rw [hb] at h1; simp at h1)
    have : ids.contains m.conversation_id = true := by
      cases hb : ids.contains m.conversation_id with
      | true => rfl
      | false => rw [hb] at h2; simp at h2
    rw [hmc] at this
    exact hc (by simpa using this)

theorem group_mem_analyst (s : Store) (u : Nat) (g : ConvGroup)
    (hg : g ∈ groupsOf (convsOf s u)) :
    ∃ c ∈ convsOf s u, c.analyst_id = g.analyst_id := by
  have h1 : g.analyst_id ∈ (groupsOf (convsOf s u)).map (fun g => g.analyst_id) :=
    List.mem_map_of_mem _ hg
  rw [groupsOf_analysts, dedupFirst_mem] at h1
  obtain ⟨c, hc, he⟩ := List.mem_map.1 h1
  exact ⟨c, hc, he⟩

/-- C3: the `unread_count` of every emitted chat equals the number of store
messages whose `conversation_id` lies in its counterpart group's full
thread-id set, whose `read` flag is false and whose sender differs from the
actor.  (Store primary keys are unique, hence the conversation-id Nodup
hypothesis; the unread bulk fetch must succeed.) -/
theorem c3_unread (s : Store) (u : Nat)
    (hnd : (s.conversations.map (fun c => c.id)).Nodup)
    (herr : s.messagesError = false) :
    ∀ chat ∈ fetchCreatorChats s u,
      chat.unread_count
        = s.messages.countP (fun m =>
            (((convsOf s u).filter
              (fun c => c.analyst_id == chat.opportunity.analyst_id)).map
                (fun c => c.id)).contains m.conversation_id
            && (!m.read && (m.sender_id != u))) := by
  intro chat hchat
  obtain ⟨hce, g, hg, hmem⟩ := (mem_fetchCreatorChats s u chat).1 hchat
  obtain ⟨hana, -, hunread, -, -⟩ := chatsForGroup_fields s u g chat hmem
  rw [hana, hunread, convIdsFor_eq, foldl_add_counts]
  simp only [Nat.zero_add]
  have hsub : ∀ c ∈ ((convsOf s u).filter
      (fun c => c.analyst_id == g.analyst_id)).map (fun c => c.id),
      c ∈ allConvIdsOf s u := by
    intro c hcmem
    apply mem_allConvIdsOf s u g.analyst_id c
    rw [convIdsFor_eq]
    exact hcmem
  have hnodup : (((convsOf s u).filter
      (fun c => c.analyst_id == g.analyst_id)).map (fun c => c.id)).Nodup :=
    List.Nodup.sublist ((List.filter_sublist _).map _) (convsOf_ids_nodup s u hnd)
  have hne : (allConvIdsOf s u).isEmpty = false := by
    obtain ⟨c0, hc0, he0⟩ := group_mem_analyst s u g hg
    have : c0.id ∈ allConvIdsOf s u := by
      apply hsub
      apply List.mem_map_of_mem
      rw [List.mem_filter]
      exact ⟨hc0, by simp [he0]⟩
    exact List.isEmpty_eq_false.2 (List.ne_nil_of_mem this)
  have hmapeq : (((convsOf s u).filter
        (fun c => c.analyst_id == g.analyst_id)).map (fun c => c.id)).map
          (fun c => unreadCountOf s u c)
      = (((convsOf s u).filter
          (fun c => c.analyst_id == g.analyst_id)).map (fun c => c.id)).map
            (fun c => s.messages.countP (fun m =>
              (m.conversation_id == c) && (!m.read && (m.sender_id != u)))) := by
    apply List.map_congr_left
    intro c hcmem
    exact unreadCountOf_eq s u c (by simpa using hsub c hcmem) hne herr
  rw [hmapeq,
      sum_countP_by_key _ s.messages (fun m => !m.read && (m.sender_id != u)) hnodup]

/-- Witness for C3: the single chat on `storeW` counts exactly its group's
one unread incoming message. -/
theorem c3_witness :
    chatW.unread_count
      = storeW.messages.countP (fun m =>
          (((convsOf storeW 7).filter
            (fun c => c.analyst_id == chatW.opportunity.analyst_id)).map
              (fun c => c.id)).contains m.conversation_id
          && (!m.read && (m.sender_id != 7))) :=
  c3_unread storeW 7 (by decide) rfl chatW (by decide)

/-! ## Claim C4 -/

theorem foldl_latest_none (l : List MessageRow) :
    ∀ acc : Option MessageRow,
      l.foldl (fun acc m =>
        match acc with
        | none => some m
        | some b => if b.created_at < m.created_at then some m else some b) acc
          = none →
      acc = none ∧ l = [] := by
  induction l with
  | nil => intro acc h; exact ⟨h, rfl⟩
  | cons m l ih =>
    intro acc h
    rw [List.foldl_cons] at h
    obtain ⟨hstep, -⟩ := ih _ h
    exfalso
    cases acc with
    | none => cases hstep
    | some b =>
      have hred : (match some b with
          | none => some m
          | some x => if x.created_at < m.created_at then some m else some x)
            = if b.created_at < m.created_at then some m else some b := rfl
      rw [hred] at hstep
      by_cases hb : b.created_at < m.created_at
      · rw [if_pos hb] at hstep; cases hstep
      · rw [if_neg hb] at hstep; cases hstep

theorem foldl_latest_some (l : List MessageRow) :
    ∀ (acc : Option MessageRow) (r : MessageRow),
      l.foldl (fun acc m =>
        match acc with
        | none => some m
        | some b => if b.created_at < m.created_at then some m else some b) acc
          = some r →
      (r ∈ l ∨ acc = some r)
      ∧ (∀ x ∈ l, x.created_at ≤ r.created_at)
      ∧ (∀ b, acc = some b → b.created_at ≤ r.created_at) := by
  induction l with
  | nil =>
    intro acc r h
    refine ⟨Or.inr h, ?_, ?_⟩
    · intro x hx; cases hx
    · intro b hb
      rw [hb] at h
      cases h
      exact Nat.le_refl _
  | cons m l ih =>
    intro acc r h
    rw [List.foldl_cons] at h
    obtain ⟨hin, hbound, haccb⟩ := ih _ r h
    have hstep : ∀ b, (match acc with
        | none => some m
        | some b => if b.created_at < m.created_at then some m else some b) = some b
          → b.created_at ≤ r.created_at := haccb
    have hm : m.created_at ≤ r.created_at := by
      cases acc with
      | none => exact hstep m rfl
      | some b =>
        have hred : (match some b with
            | none => some m
            | some x => if x.created_at < m.created_at then some m else some x)
              = if b.created_at < m.created_at then some m else some b := rfl
        by_cases hb : b.created_at < m.created_at
        · exact hstep m (by rw [hred, if_pos hb])
        · exact Nat.le_trans (Nat.le_of_not_lt hb) (hstep b (by rw [hred, if_neg hb]))
    refine ⟨?_, ?_, ?_⟩
    · rcases hin with h1 | h1
      · exact Or.inl (List.mem_cons_of_mem _ h1)
      · cases acc with
        | none =>
          cases h1
          exact Or.inl (List.mem_cons_self _ _)
        | some b =>
          have hred : (match some b with
              | none => some m
              | some x => if x.created_at < m.created_at then some m else some x)
                = if b.created_at < m.created_at then some m else some b := rfl
          rw [hred] at h1
          by_cases hb : b.created_at < m.created_at
          · rw [if_pos hb] at h1
            cases h1
            exact Or.inl (List.mem_cons_self _ _)
          · rw [if_neg hb] at h1
            exact Or.inr h1
    · intro x hx
      rcases List.mem_cons.1 hx with h1 | h1
      · subst h1; exact hm
      · exact hbound x h1
    · intro b hb
      subst hb
      have hred : (match some b with
          | none => some m
          | some x => if x.created_at < m.created_at then some m else some x)
            = if b.created_at < m.created_at then some m else some b := rfl
      by_cases hb2 : b.created_at < m.created_at
      · exact Nat.le_trans (Nat.le_of_lt hb2) hm
      · exact haccb b (by rw [hred, if_neg hb2])

theorem latestPerConversation_none (msgs : List MessageRow) (c : Nat) :
    latestPerConversation msgs c = none ↔
      msgs.filter (fun m => m.conversation_id == c) = [] := by
  constructor
  · intro h
    exact (foldl_latest_none _ none h).2
  · intro h
    unfold latestPerConversation
    rw [h]
    rfl

theorem latestPerConversation_some (msgs : List MessageRow) (c : Nat)
    (m : MessageRow) (h : latestPerConversation msgs c = some m) :
    m ∈ msgs.filter (fun x => x.conversation_id == c)
    ∧ ∀ x ∈ msgs.filter (fun x => x.conversation_id == c),
        x.created_at ≤ m.created_at := by
  have h2 := foldl_latest_some _ none m h
  refine ⟨?_, h2.2.1⟩
  rcases h2.1 with h1 | h1
  · exact h1
  · cases h1

theorem latestFromRpc_eq (s : Store) (u c : Nat) (hrpc : s.rpcError = false)
    (hc : (allConvIdsOf s u).contains c = true)
    (hne : (allConvIdsOf s u).isEmpty = false) :
    latestFromRpc s u c = latestPerConversation s.messages c := by
  unfold latestFromRpc
  rw [hne, hrpc, hc]
  rfl

theorem lastMsgInv_step (s : Store) (u : Nat) (cs : List Nat)
    (acc : Option LastMessageOut) (c : Nat) (hrpc : s.rpcError = false)
    (hc : (allConvIdsOf s u).contains c = true)
    (hne : (allConvIdsOf s u).isEmpty = false) :
    LastMsgInv s cs acc →
    LastMsgInv s (cs ++ [c])
      (match latestFromRpc s u c with
       | none => acc
       | some m =>
         match acc with
         | none => some ⟨m.content, m.sender_type, m.created_at⟩
         | some b =>
           if b.created_at < m.created_at then
             some ⟨m.content, m.sender_type, m.created_at⟩
           else acc) := by
  intro hinv
  have hconteq : ∀ x : Nat, (cs ++ [c]).contains x = (cs.contains x || (x == c)) := by
    intro x
    rw [Bool.eq_iff_iff]
    simp [beq_iff_eq]
  rw [latestFromRpc_eq s u c hrpc hc hne]
  cases hl : latestPerConversation s.messages c with
  | none =>
    have hempty := (latestPerConversation_none s.messages c).1 hl
    have hnoc : ∀ m ∈ s.messages, (m.conversation_id == c) = false := by
      intro m hm
      have := List.filter_eq_nil_iff.1 hempty m hm
      cases hb : (m.conversation_id == c) with
      | true => exact absurd hb this
      | false => rfl
    constructor
    · intro hacc m hm
      rw [hconteq, hinv.1 hacc m hm, hnoc m hm]
      rfl
    · intro lm hacc
      obtain ⟨m, hm, hcont, hproj, hbound⟩ := hinv.2 lm hacc
      refine ⟨m, hm, ?_, hproj, ?_⟩
      · rw [hconteq, hcont]; rfl
      · intro x hx hxc
        rw [hconteq] at hxc
        cases hb : cs.contains x.conversation_id with
        | true => exact hbound x hx hb
        | false =>
          rw [hb] at hxc
          simp only [Bool.false_or] at hxc
          rw [hnoc x hx] at hxc
          cases hxc
  | some m0 =>
    obtain ⟨hm0mem, hm0max⟩ := latestPerConversation_some s.messages c m0 hl
    have hm0msgs : m0 ∈ s.messages := (List.mem_filter.1 hm0mem).1
    have hm0c : (m0.conversation_id == c) = true := (List.mem_filter.1 hm0mem).2
    have hmaxc : ∀ x ∈ s.messages, (x.conversation_id == c) = true →
        x.created_at ≤ m0.created_at := by
      intro x hx hxc
      exact hm0max x (List.mem_filter.2 ⟨hx, hxc⟩)
    cases acc with
    | none =>
      constructor
      · intro hacc; cases hacc
      · intro lm hacc
        cases hacc
        refine ⟨m0, hm0msgs, ?_, rfl, ?_⟩
        · rw [hconteq, hm0c]; simp
        · intro x hx hxc
          rw [hconteq] at hxc
          cases hb : cs.contains x.conversation_id with
          | true => exact absurd (hinv.1 rfl x hx) (by rw [hb]; exact fun h => Bool.noConfusion h)
          | false =>
            rw [hb] at hxc
            simp only [Bool.false_or] at hxc
            exact hmaxc x hx hxc
    | some b =>
      obtain ⟨mb, hmb, hmbcont, hmbproj, hmbbound⟩ := hinv.2 b rfl
      show LastMsgInv s (cs ++ [c])
        (if b.created_at < m0.created_at then
          some ⟨m0.content, m0.sender_type, m0.created_at⟩
         else some b)
      by_cases hlt : b.created_at < m0.created_at
      · rw [if_pos hlt]
        constructor
        · intro hacc; cases hacc
        · intro lm hacc
          cases hacc
          refine ⟨m0, hm0msgs, ?_, rfl, ?_⟩
          · rw [hconteq, hm0c]; simp
          · intro x hx hxc
            rw [hconteq] at hxc
            cases hb2 : cs.contains x.conversation_id with
            | true =>
              have hxb := hmbbound x hx hb2
              have hbm : b.created_at = mb.created_at := by rw [hmbproj]
              exact Nat.le_trans hxb (Nat.le_of_lt (hbm ▸ hlt))
            | false =>
              rw [hb2] at hxc
              simp only [Bool.false_or] at hxc
              exact hmaxc x hx hxc
      · rw [if_neg hlt]
        constructor
        · intro hacc; cases hacc
        · intro lm hacc
          cases hacc
          refine ⟨mb, hmb, ?_, hmbproj, ?_⟩
          · rw [hconteq, hmbcont]; rfl
          · intro x hx hxc
            rw [hconteq] at hxc
            cases hb2 : cs.contains x.conversation_id with
            | true => exact hmbbound x hx hb2
            | false =>
              rw [hb2] at hxc
              simp only [Bool.false_or] at hxc
              have hxm0 := hmaxc x hx hxc
              have hbm : b.created_at = mb.created_at := by rw [hmbproj]
              exact Nat.le_trans hxm0 (hbm ▸ Nat.le_of_not_lt hlt)

theorem lastMsgFold_inv (s : Store) (u : Nat) (hrpc : s.rpcError = false)
    (hne : (allConvIdsOf s u).isEmpty = false) :
    ∀ (cids cs : List Nat) (acc : Option LastMessageOut),
      (∀ c ∈ cids, (allConvIdsOf s u).contains c = true) →
      LastMsgInv s cs acc →
      LastMsgInv s (cs ++ cids)
        (cids.foldl (fun acc cid =>
          match latestFromRpc s u cid with
          | none => acc
          | some m =>
            match acc with
            | none => some ⟨m.content, m.sender_type, m.created_at⟩
            | some b =>
              if b.created_at < m.created_at then
                some ⟨m.content, m.sender_type, m.created_at⟩
              else acc) acc) := by
  intro cids
  induction cids with
  | nil =>
    intro cs acc _ hinv
    simpa using hinv
  | cons c cids ih =>
    intro cs acc hall hinv
    rw [List.foldl_cons]
    have h1 := lastMsgInv_step s u cs acc c hrpc (hall c (by simp)) hne hinv
    have h2 := ih (cs ++ [c]) _
      (fun x hx => hall x (List.mem_cons_of_mem _ hx)) h1
    have h3 : cs ++ c :: cids = (cs ++ [c]) ++ cids := by simp
    rw [h3]
    exact h2

theorem lastMessageFor_inv (s : Store) (u : Nat) (hrpc : s.rpcError = false)
    (hne : (allConvIdsOf s u).isEmpty = false) (cids : List Nat)
    (hall : ∀ c ∈ cids, (allConvIdsOf s u).contains c = true) :
    LastMsgInv s cids (lastMessageFor s u cids) := by
  have base : LastMsgInv s [] none := by
    constructor
    · intro _ m _; rfl
    · intro lm h; cases h
  have h := lastMsgFold_inv s u hrpc hne cids [] none hall base
  simpa using h

/-- C4: for every emitted chat, `lastMessage` is absent exactly when the
counterpart group's thread-id set has no messages, and otherwise projects a
message of the group whose `created_at` is maximal among all of the group's
messages.  (The latest-message RPC is modelled from the spec, §4.5, and
must succeed.) -/
theorem c4_latest (s : Store) (u : Nat) (hrpc : s.rpcError = false) :
    ∀ chat ∈ fetchCreatorChats s u,
      (chat.lastMessage = none ↔ groupMsgs s u chat.opportunity.analyst_id = [])
      ∧ ∀ lm, chat.lastMessage = some lm →
          ∃ m ∈ groupMsgs s u chat.opportunity.analyst_id,
            lm = ⟨m.content, m.sender_type, m.created_at⟩
            ∧ ∀ x ∈ groupMsgs s u chat.opportunity.analyst_id,
                x.created_at ≤ m.created_at := by
  intro chat hchat
  obtain ⟨hce, g, hg, hmem⟩ := (mem_fetchCreatorChats s u chat).1 hchat
  obtain ⟨hana, -, -, hlast, -⟩ := chatsForGroup_fields s u g chat hmem
  rw [hana]
  rw [convIdsFor_eq] at hlast
  have hsub : ∀ c ∈ ((convsOf s u).filter
      (fun c => c.analyst_id == g.analyst_id)).map (fun c => c.id),
      c ∈ allConvIdsOf s u := by
    intro c hcmem
    apply mem_allConvIdsOf s u g.analyst_id c
    rw [convIdsFor_eq]
    exact hcmem
  have hne : (allConvIdsOf s u).isEmpty = false := by
    obtain ⟨c0, hc0, he0⟩ := group_mem_analyst s u g hg
    have : c0.id ∈ allConvIdsOf s u := by
      apply hsub
      apply List.mem_map_of_mem
      rw [List.mem_filter]
      exact ⟨hc0, by simp [he0]⟩
    exact List.isEmpty_eq_false.2 (List.ne_nil_of_mem this)
  have hinv := lastMessageFor_inv s u hrpc hne
    (((convsOf s u).filter (fun c => c.analyst_id == g.analyst_id)).map
      (fun c => c.id))
    (fun c hc => by simpa using hsub c hc)
  rw [← hlast] at hinv
  constructor
  · constructor
    · intro hnone
      unfold groupMsgs
      rw [List.filter_eq_nil_iff]
      intro m hm
      rw [hinv.1 hnone m hm]
      exact fun h => Bool.noConfusion h
    · intro hnil
      cases hcl : chat.lastMessage with
      | none => rfl
      | some lm =>
        exfalso
        obtain ⟨m, hm, hcont, -, -⟩ := hinv.2 lm hcl
        have hmg : m ∈ groupMsgs s u g.analyst_id :=
          List.mem_filter.2 ⟨hm, hcont⟩
        rw [hnil] at hmg
        cases hmg
  · intro lm hcl
    obtain ⟨m, hm, hcont, hproj, hbound⟩ := hinv.2 lm hcl
    refine ⟨m, List.mem_filter.2 ⟨hm, hcont⟩, hproj, ?_⟩
    intro x hx
    obtain ⟨hx1, hx2⟩ := List.mem_filter.1 hx
    exact hbound x hx1 hx2

/-- Witness for C4: the single chat on `storeW` carries a latest message
(its group has messages). -/
theorem c4_witness :
    chatW.lastMessage = none ↔ groupMsgs storeW 7 chatW.opportunity.analyst_id = [] :=
  (c4_latest storeW 7 rfl chatW (by decide)).1

/-! ## Claim C5 -/

theorem getLast?_mem_of_eq {α : Type} (l : List α) (x : α)
    (h : l.getLast? = some x) : x ∈ l := by
  rw [List.getLast?_eq_some_iff] at h
  obtain ⟨ys, rfl⟩ := h
  simp

theorem filter_single_of_nodup {α : Type} (key : α → Nat) (l : List α)
    (hnd : (l.map key).Nodup) (x : α) (hx : x ∈ l) (v : Nat) (hv : key x = v) :
    l.filter (fun y => key y == v) = [x] := by
  induction l with
  | nil => cases hx
  | cons y l ih =>
    have hnd2 : (key y :: l.map key).Nodup := by simpa using hnd
    obtain ⟨hh, ht⟩ := List.nodup_cons.1 hnd2
    rcases List.mem_cons.1 hx with h1 | h1
    · subst h1
      rw [List.filter_cons, if_pos (by simp [hv])]
      have hnil : l.filter (fun z => key z == v) = [] := by
        rw [List.filter_eq_nil_iff]
        intro z hz hkz
        apply hh
        have hzz : key z = key x := ((beq_iff_eq).1 hkz).trans hv.symm
        rw [← hzz]
        exact List.mem_map_of_mem _ hz
      rw [hnil]
    · have hky : ¬ (key y == v) = true := by
        intro hk
        apply hh
        rw [(beq_iff_eq).1 hk, ← hv]
        exact List.mem_map_of_mem _ h1
      rw [List.filter_cons, if_neg hky]
      exact ih ht h1

theorem oppLookup_eq (s : Store) (u : Nat) (app : ApplicationRow)
    (happ : app ∈ appsFetched s u) (hoe : s.opportunitiesError = false)
    (hndo : (s.opportunities.map (fun o => o.id)).Nodup)
    (opp : OpportunityRow) (hopp : opp ∈ s.opportunities)
    (hid : opp.id = app.opportunity_id) :
    oppLookup s u app.opportunity_id = some opp := by
  have hoid : app.opportunity_id ∈ oppIdsOf s u :=
    List.mem_map_of_mem _ happ
  have hnempty : (oppIdsOf s u).isEmpty = false :=
    List.isEmpty_eq_false.2 (List.ne_nil_of_mem hoid)
  unfold oppLookup oppsFetched
  rw [hnempty, hoe]
  show ((s.opportunities.filter (fun o => (oppIdsOf s u).contains o.id)).filter
    (fun o => o.id == app.opportunity_id)).getLast? = some opp
  rw [List.filter_filter]
  have hcongr : s.opportunities.filter
      (fun o => (o.id == app.opportunity_id) && (oppIdsOf s u).contains o.id)
        = s.opportunities.filter (fun o => o.id == app.opportunity_id) := by
    apply List.filter_congr
    intro o _
    by_cases ho : (o.id == app.opportunity_id) = true
    · have hmemo : o.id ∈ oppIdsOf s u := by
        rw [(beq_iff_eq).1 ho]
        exact hoid
      simp [ho, hmemo]
    · simp [ho]
  rw [hcongr, filter_single_of_nodup (fun o => o.id) s.opportunities hndo opp hopp
      app.opportunity_id hid]
  rfl

/-- C5: given a counterpart that has at least one conversation (a group),
an approved application of the actor is emitted as a chat of that group if
and only if its opportunity resolves in the store and is owned by that
counterpart; hence orphaned applications are silently dropped,
cross-counterpart applications never leak in, and groups with no matching
application contribute nothing. -/
theorem c5_emission (s : Store) (u : Nat)
    (hce : s.convError = false)
    (hoe : s.opportunitiesError = false)
    (hndo : (s.opportunities.map (fun o => o.id)).Nodup)
    (hnda : (s.applications.map (fun a => a.id)).Nodup)
    (a : Nat) (hgrp : ∃ g ∈ groupsOf (convsOf s u), g.analyst_id = a) :
    ∀ app ∈ appsFetched s u,
      ((∃ chat ∈ fetchCreatorChats s u,
          chat.project_id = app.id ∧ chat.opportunity.analyst_id = a) ↔
        ∃ opp ∈ s.opportunities, opp.id = app.opportunity_id
          ∧ opp.analyst_id = a) := by
  intro app happ
  have happsnd : ((appsFetched s u).map (fun x => x.id)).Nodup := by
    unfold appsFetched
    cases hae : s.applicationsError with
    | true => simp
    | false =>
      exact List.Nodup.sublist ((List.filter_sublist _).map _) hnda
  constructor
  · rintro ⟨chat, hchat, hpid, hana⟩
    obtain ⟨-, g, hg, hmem⟩ := (mem_fetchCreatorChats s u chat).1 hchat
    obtain ⟨hana2, -, -, -, app2, happ2, hpid2, -, opp, ho, hoana⟩ :=
      chatsForGroup_fields s u g chat hmem
    have happeq : app2 = app :=
      List.inj_on_of_nodup_map happsnd happ2 happ (by rw [← hpid2, ← hpid])
    subst happeq
    have hoppmem : opp ∈ s.opportunities := by
      have h1 := getLast?_mem_of_eq _ _ ho
      have h2 := (List.mem_filter.1 h1).1
      unfold oppsFetched at h2
      by_cases hne : (oppIdsOf s u).isEmpty
      · rw [if_pos (by simp [hne])] at h2
        cases h2
      · rw [if_neg (by simp [hne, hoe])] at h2
        exact (List.mem_filter.1 h2).1
    have hoppid : opp.id = app2.opportunity_id := by
      have h1 := getLast?_mem_of_eq _ _ ho
      exact (beq_iff_eq).1 (List.mem_filter.1 h1).2
    refine ⟨opp, hoppmem, hoppid, ?_⟩
    rw [hoana, ← hana2, hana]
  · rintro ⟨opp, hopp, hid, hoana⟩
    obtain ⟨g, hg, hga⟩ := hgrp
    have ho : oppLookup s u app.opportunity_id = some opp :=
      oppLookup_eq s u app happ hoe hndo opp hopp hid
    have hp : (⟨app.id, app.opportunity_id, opp.title, opp.company,
        opp.analyst_id⟩ : ProjectEntry) ∈ formattedProjectsFor s u g.analyst_id := by
      unfold formattedProjectsFor
      apply List.mem_filterMap.2
      refine ⟨app, happ, ?_⟩
      simp only [ho]
      rw [if_pos (by simp [hoana, hga])]
    have hchat := List.mem_map_of_mem (f := fun p : ProjectEntry =>
      ({ project_id := p.id, opportunity_id := p.opportunity_id,
         opportunity := ⟨p.opportunity_id, p.title, p.company, "active",
           p.analyst_id, p.analyst_id⟩,
         analyst := ⟨(identityFor s (analystIdsOf s u) g.analyst_id).name,
           p.company, (identityFor s (analystIdsOf s u) g.analyst_id).avatar_url⟩,
         conversation_id := g.id, last_message_at := g.last_message_at,
         lastMessage := lastMessageFor s u
           (convIdsFor (idsMapOf (convsOf s u)) g.analyst_id),
         unread_count := (convIdsFor (idsMapOf (convsOf s u))
           g.analyst_id).foldl (fun n c => n + unreadCountOf s u c) 0,
         custom_title := jsOrNullStr g.custom_title,
         tags := g.tags.getD [] } : ProjectChat)) hp
    refine ⟨_, (mem_fetchCreatorChats s u _).2 ⟨hce, g, hg, hchat⟩, rfl, ?_⟩
    show opp.analyst_id = a
    rw [hoana]

/-- Witness for C5: on `storeW` the approved application (id 11) is emitted
for counterpart 1 exactly because opportunity 21 exists and is owned by
counterpart 1. -/
theorem c5_witness :
    (∃ chat ∈ fetchCreatorChats storeW 7,
        chat.project_id = (⟨11, 7, 21, "approved", 0⟩ : ApplicationRow).id
        ∧ chat.opportunity.analyst_id = 1) ↔
      ∃ opp ∈ storeW.opportunities,
        opp.id = (⟨11, 7, 21, "approved", 0⟩ : ApplicationRow).opportunity_id
        ∧ opp.analyst_id = 1 :=
  c5_emission storeW 7 rfl rfl (by decide) (by decide) 1 (by decide)
    ⟨11, 7, 21, "approved", 0⟩ (by decide)

/-! ## Claim C10 -/

theorem countP_filterMap {α β : Type} (f : α → Option β) (q : β → Bool)
    (l : List α) :
    (l.filterMap f).countP q
      = l.countP (fun a => match f a with | some b => q b | none => false) := by
  induction l with
  | nil => rfl
  | cons a l ih =>
    rw [List.filterMap_cons]
    cases hf : f a with
    | none => simp [hf, ih, List.countP_cons]
    | some b => simp [hf, ih, List.countP_cons]

theorem countP_false_eq {α : Type} (l : List α) (p : α → Bool)
    (h : ∀ y ∈ l, p y = false) : l.countP p = 0 := by
  induction l with
  | nil => rfl
  | cons a l ih =>
    rw [List.countP_cons, ih (fun y hy => h y (List.mem_cons_of_mem _ hy)),
        h a (List.mem_cons_self _ _)]
    rfl

theorem countP_eq_sum_ite {β : Type} (p : β → Bool) (l : List β) :
    l.countP p = (l.map (fun b => if p b then 1 else 0)).sum := by
  induction l with
  | nil => rfl
  | cons b l ih =>
    rw [List.countP_cons, List.map_cons, List.sum_cons, ih]
    by_cases hb : p b = true <;> simp [hb, Nat.add_comm]

theorem sum_map_zero {α : Type} (l : List α) :
    (l.map (fun _ => (0 : Nat))).sum = 0 := by
  induction l with
  | nil => rfl
  | cons a l ih => simp [ih]

theorem sum_countP_swap {α β : Type} (P : α → β → Bool) (la : List α)
    (lb : List β) :
    ((la.map (fun a => lb.countP (fun b => P a b))).sum)
      = ((lb.map (fun b => la.countP (fun a => P a b))).sum) := by
  induction la with
  | nil =>
    simp only [List.map_nil, List.sum_nil]
    rw [show (lb.map (fun b => ([] : List α).countP (fun a => P a b)))
        = lb.map (fun _ => (0 : Nat)) from List.map_congr_left (fun b _ => rfl),
      sum_map_zero]
  | cons a la ih =>
    rw [List.map_cons, List.sum_cons, ih]
    have hsplit : lb.map (fun b => (a :: la).countP (fun x => P x b))
        = lb.map (fun b =>
            la.countP (fun x => P x b) + (if P a b then 1 else 0)) := by
      apply List.map_congr_left
      intro b _
      rw [List.countP_cons]
    rw [hsplit, List.sum_map_add, countP_eq_sum_ite (fun b => P a b) lb,
        Nat.add_comm]

theorem countP_key_le_one {α : Type} (key : α → Nat) (l : List α)
    (hnd : (l.map key).Nodup) (v : Nat) :
    l.countP (fun y => v == key y) ≤ 1 := by
  induction l with
  | nil => exact Nat.zero_le 1
  | cons y l ih =>
    have hnd2 : (key y :: l.map key).Nodup := by simpa using hnd
    obtain ⟨hh, ht⟩ := List.nodup_cons.1 hnd2
    rw [List.countP_cons]
    by_cases hy : (v == key y) = true
    · have hzero : l.countP (fun z => v == key z) = 0 := by
        apply countP_false_eq
        intro z hz
        cases hb : (v == key z) with
        | false => rfl
        | true =>
          exfalso
          apply hh
          have h1 : key y = key z := ((beq_iff_eq).1 hy).symm.trans ((beq_iff_eq).1 hb)
          rw [h1]
          exact List.mem_map_of_mem _ hz
      rw [hzero, hy]
      exact Nat.le_refl 1
    · rw [show (v == key y) = false from Bool.eq_false_iff.2 hy]
      simpa using ih ht

theorem sum_le_one_of_unique (apps : List ApplicationRow)
    (T : ApplicationRow → Nat) (x : Nat)
    (hnd : (apps.map (fun ap => ap.id)).Nodup)
    (hT1 : ∀ app, T app ≤ 1) (hT0 : ∀ app, app.id ≠ x → T app = 0) :
    ((apps.map T).sum) ≤ 1 := by
  induction apps with
  | nil => exact Nat.zero_le 1
  | cons a apps ih =>
    have hnd2 : (a.id :: apps.map (fun ap => ap.id)).Nodup := by simpa using hnd
    obtain ⟨hh, ht⟩ := List.nodup_cons.1 hnd2
    rw [List.map_cons, List.sum_cons]
    by_cases hx : a.id = x
    · have hrest : (apps.map T).sum = 0 := by
        apply List.sum_eq_zero
        intro n hn
        obtain ⟨b, hb, hbn⟩ := List.mem_map.1 hn
        rw [← hbn]
        apply hT0
        intro hbx
        apply hh
        have h1 : a.id = b.id := hx.trans hbx.symm
        rw [h1]
        exact List.mem_map_of_mem _ hb
      rw [hrest]
      simpa using hT1 a
    · rw [hT0 a hx, Nat.zero_add]
      exact ih ht

theorem chats_countP_eq (s : Store) (u : Nat) (g : ConvGroup) (x : Nat) :
    (chatsForGroup s u g).countP (fun ch => ch.project_id == x)
      = (appsFetched s u).countP
          (fun app => (app.id == x) && emitsFor s u g.analyst_id app) := by
  unfold chatsForGroup
  rw [List.countP_map]
  unfold formattedProjectsFor
  rw [countP_filterMap]
  apply List.countP_congr
  intro app _
  unfold emitsFor
  cases ho : oppLookup s u app.opportunity_id with
  | none => simp [ho, Function.comp]
  | some opp =>
    by_cases he : (opp.analyst_id == g.analyst_id) = true
    · simp [ho, he, Function.comp]
    · simp [ho, he, Function.comp]

/-- C10: every approved application contributes at most one chat to the
whole output: although the application list is rescanned per counterpart
group, an application is emitted only for the single group owning its
opportunity. -/
theorem c10_unique (s : Store) (u : Nat)
    (hnda : (s.applications.map (fun ap => ap.id)).Nodup) (x : Nat) :
    (fetchCreatorChats s u).countP (fun ch => ch.project_id == x) ≤ 1 := by
  unfold fetchCreatorChats
  cases hce : s.convError with
  | true => exact Nat.zero_le 1
  | false =>
    show ((groupsOf (convsOf s u)).map (chatsForGroup s u)).flatten.countP
      (fun ch => ch.project_id == x) ≤ 1
    rw [List.countP_flatten, List.map_map]
    have hmc : (groupsOf (convsOf s u)).map
        (List.countP (fun ch => ch.project_id == x) ∘ chatsForGroup s u)
      = (groupsOf (convsOf s u)).map (fun g => (appsFetched s u).countP
          (fun app => (app.id == x) && emitsFor s u g.analyst_id app)) := by
      apply List.map_congr_left
      intro g _
      exact chats_countP_eq s u g x
    rw [hmc,
        sum_countP_swap (fun g app => (app.id == x) && emitsFor s u g.analyst_id app)
          (groupsOf (convsOf s u)) (appsFetched s u)]
    have hndapps : ((appsFetched s u).map (fun ap => ap.id)).Nodup := by
      unfold appsFetched
      cases hae : s.applicationsError with
      | true => simp
      | false => exact List.Nodup.sublist ((List.filter_sublist _).map _) hnda
    have hndg : ((groupsOf (convsOf s u)).map (fun g => g.analyst_id)).Nodup := by
      rw [groupsOf_analysts]
      exact dedupFirst_nodup _
    apply sum_le_one_of_unique (appsFetched s u) _ x hndapps
    · intro app
      by_cases hx : (app.id == x) = true
      · cases ho : oppLookup s u app.opportunity_id with
        | none =>
          have hz : (groupsOf (convsOf s u)).countP
              (fun g => (app.id == x) && emitsFor s u g.analyst_id app) = 0 := by
            apply countP_false_eq
            intro g _
            unfold emitsFor
            rw [ho]
            simp
          rw [hz]
          exact Nat.zero_le 1
        | some opp =>
          have hcongr : (groupsOf (convsOf s u)).countP
              (fun g => (app.id == x) && emitsFor s u g.analyst_id app)
            = (groupsOf (convsOf s u)).countP
                (fun g => opp.analyst_id == g.analyst_id) := by
            apply List.countP_congr
            intro g _
            unfold emitsFor
            rw [ho]
            simp [hx]
          rw [hcongr]
          exact countP_key_le_one (fun g : ConvGroup => g.analyst_id)
            (groupsOf (convsOf s u)) hndg opp.analyst_id
      · have hz : (groupsOf (convsOf s u)).countP
            (fun g => (app.id == x) && emitsFor s u g.analyst_id app) = 0 := by
          apply countP_false_eq
          intro g _
          rw [show (app.id == x) = false from Bool.eq_false_iff.2 hx]
          rfl
        rw [hz]
        exact Nat.zero_le 1
    · intro app hax
      apply countP_false_eq
      intro g _
      rw [show (app.id == x) = false from Bool.eq_false_iff.2 (by
        intro hb
        exact hax ((beq_iff_eq).1 hb))]
      rfl

/-- Witness for C10: on `storeW` at most one chat carries project id 11. -/
theorem c10_witness :
    (fetchCreatorChats storeW 7).countP (fun ch => ch.project_id == 11) ≤ 1 :=
  c10_unique storeW 7 (by decide) 11

/-! ## Claim C6, amended statement and witness

The amended theorem covers the failure of every one of the seven bulk
operations, so it is stated after the counting helpers it relies on. -/

/-- C6 (amended): only a failure of the initial conversations fetch
short-circuits, and then the function returns the empty list rather than
surfacing an error.  A failure of every other bulk operation is swallowed
and a consolidated list is still returned: a failed analysts, profiles,
applications or opportunities fetch behaves exactly as if that table were
empty; a failed unread-messages fetch yields the same list with every
`unread_count` equal to `0`; a failed latest-messages RPC yields the same
list with every `lastMessage` absent. -/
theorem c6_amended :
    (∀ (s : Store) (u : Nat), s.convError = true → fetchCreatorChats s u = [])
    ∧ (∀ (s : Store) (u : Nat),
        fetchCreatorChats { s with analystsError := true } u
          = fetchCreatorChats { s with analysts := [] } u)
    ∧ (∀ (s : Store) (u : Nat),
        fetchCreatorChats { s with profilesError := true } u
          = fetchCreatorChats { s with profiles := [] } u)
    ∧ (∀ (s : Store) (u : Nat),
        fetchCreatorChats { s with applicationsError := true } u
          = fetchCreatorChats { s with applications := [] } u)
    ∧ (∀ (s : Store) (u : Nat),
        fetchCreatorChats { s with opportunitiesError := true } u
          = fetchCreatorChats { s with opportunities := [] } u)
    ∧ (∀ (s : Store) (u : Nat),
        fetchCreatorChats { s with messagesError := true } u
          = (fetchCreatorChats s u).map (fun ch => { ch with unread_count := 0 }))
    ∧ (∀ (s : Store) (u : Nat),
        fetchCreatorChats { s with rpcError := true } u
          = (fetchCreatorChats s u).map (fun ch => { ch with lastMessage := none })) := by
  refine ⟨?_, ?_, ?_, ?_, ?_, ?_, ?_⟩
  · intro s u h
    unfold fetchCreatorChats
    rw [h]
    rfl
  · intro s u
    have hid : ∀ (ids : List Nat) (a : Nat),
        identityFor { s with analystsError := true } ids a
          = identityFor { s with analysts := [] } ids a := by
      intro ids a
      unfold identityFor
      cases hae : s.analystsError with
      | true => rfl
      | false => rfl
    have hch : chatsForGroup { s with analystsError := true } u
        = chatsForGroup { s with analysts := [] } u := by
      funext g
      unfold chatsForGroup
      rw [hid]
      rfl
    unfold fetchCreatorChats
    rw [hch]
    rfl
  · intro s u
    have hid : ∀ (ids : List Nat) (a : Nat),
        identityFor { s with profilesError := true } ids a
          = identityFor { s with profiles := [] } ids a := by
      intro ids a
      unfold identityFor
      cases hpe : s.profilesError with
      | true => rfl
      | false => rfl
    have hch : chatsForGroup { s with profilesError := true } u
        = chatsForGroup { s with profiles := [] } u := by
      funext g
      unfold chatsForGroup
      rw [hid]
      rfl
    unfold fetchCreatorChats
    rw [hch]
    rfl
  · intro s u
    have h2 : appsFetched { s with applications := [] } u = [] := by
      unfold appsFetched
      cases hae : s.applicationsError with
      | true => rfl
      | false => rfl
    have hfp : ∀ a, formattedProjectsFor { s with applicationsError := true } u a
        = formattedProjectsFor { s with applications := [] } u a := by
      intro a
      unfold formattedProjectsFor
      rw [show appsFetched { s with applicationsError := true } u = [] from rfl, h2]
      rfl
    have hch : chatsForGroup { s with applicationsError := true } u
        = chatsForGroup { s with applications := [] } u := by
      funext g
      unfold chatsForGroup
      rw [hfp]
      rfl
    unfold fetchCreatorChats
    rw [hch]
    rfl
  · intro s u
    have h1 : oppsFetched { s with opportunitiesError := true } u = [] := by
      unfold oppsFetched
      cases hie : (oppIdsOf { s with opportunitiesError := true } u).isEmpty with
      | true => rfl
      | false => rfl
    have h2 : oppsFetched { s with opportunities := [] } u = [] := by
      unfold oppsFetched
      cases hie : (oppIdsOf { s with opportunities := [] } u).isEmpty with
      | true => rfl
      | false =>
        cases hoe : s.opportunitiesError with
        | true => rfl
        | false => rfl
    have hol : ∀ oid, oppLookup { s with opportunitiesError := true } u oid
        = oppLookup { s with opportunities := [] } u oid := by
      intro oid
      unfold oppLookup
      rw [h1, h2]
    have hfp : ∀ a, formattedProjectsFor { s with opportunitiesError := true } u a
        = formattedProjectsFor { s with opportunities := [] } u a := by
      intro a
      unfold formattedProjectsFor
      simp only [hol]
      rfl
    have hch : chatsForGroup { s with opportunitiesError := true } u
        = chatsForGroup { s with opportunities := [] } u := by
      funext g
      unfold chatsForGroup
      rw [hfp]
      rfl
    unfold fetchCreatorChats
    rw [hch]
    rfl
  · intro s u
    have hum : unreadMsgsOf { s with messagesError := true } u = [] := by
      unfold unreadMsgsOf
      cases hie : (allConvIdsOf { s with messagesError := true } u).isEmpty with
      | true => rfl
      | false => rfl
    have hu : ∀ c, unreadCountOf { s with messagesError := true } u c = 0 := by
      intro c
      unfold unreadCountOf
      rw [hum]
      rfl
    have hzero : ∀ l : List Nat,
        l.foldl (fun n c => n + unreadCountOf { s with messagesError := true } u c) 0
          = 0 := by
      intro l
      rw [foldl_add_counts (fun c => unreadCountOf { s with messagesError := true } u c) l 0]
      rw [show l.map (fun c => unreadCountOf { s with messagesError := true } u c)
          = l.map (fun _ => (0 : Nat)) from List.map_congr_left (fun c _ => hu c)]
      rw [sum_map_zero]
    have hch : ∀ g, chatsForGroup { s with messagesError := true } u g
        = (chatsForGroup s u g).map (fun ch => { ch with unread_count := 0 }) := by
      intro g
      simp only [chatsForGroup]
      rw [List.map_map]
      apply List.map_congr_left
      intro p hp
      rw [hzero]
      rfl
    unfold fetchCreatorChats
    cases hce : s.convError with
    | true => rfl
    | false =>
      show ((groupsOf (convsOf { s with messagesError := true } u)).map
            (chatsForGroup { s with messagesError := true } u)).flatten
          = (((groupsOf (convsOf s u)).map (chatsForGroup s u)).flatten).map
              (fun ch => { ch with unread_count := 0 })
      rw [List.map_flatten, List.map_map]
      exact congrArg List.flatten (List.map_congr_left (fun g _ => hch g))
  · intro s u
    have hlr : ∀ c, latestFromRpc { s with rpcError := true } u c = none := by
      intro c
      unfold latestFromRpc
      cases hie : (allConvIdsOf { s with rpcError := true } u).isEmpty with
      | true => rfl
      | false => rfl
    have hfold : ∀ (cids : List Nat) (acc : Option LastMessageOut),
        cids.foldl (fun a _ => a) acc = acc := by
      intro cids
      induction cids with
      | nil => intro acc; rfl
      | cons c cids ih =>
        intro acc
        rw [List.foldl_cons]
        exact ih acc
    have hlm : ∀ cids, lastMessageFor { s with rpcError := true } u cids = none := by
      intro cids
      unfold lastMessageFor
      simp only [hlr]
      exact hfold cids none
    have hch : ∀ g, chatsForGroup { s with rpcError := true } u g
        = (chatsForGroup s u g).map (fun ch => { ch with lastMessage := none }) := by
      intro g
      simp only [chatsForGroup]
      rw [List.map_map]
      apply List.map_congr_left
      intro p hp
      rw [hlm]
      rfl
    unfold fetchCreatorChats
    cases hce : s.convError with
    | true => rfl
    | false =>
      show ((groupsOf (convsOf { s with rpcError := true } u)).map
            (chatsForGroup { s with rpcError := true } u)).flatten
          = (((groupsOf (convsOf s u)).map (chatsForGroup s u)).flatten).map
              (fun ch => { ch with lastMessage := none })
      rw [List.map_flatten, List.map_map]
      exact congrArg List.flatten (List.map_congr_left (fun g _ => hch g))

/-- Witness for C6: the conversations-error store returns `[]`; on
`store6ok` an analysts-fetch failure behaves as an empty analysts table,
and a latest-messages RPC failure yields the same list with every
`lastMessage` cleared. -/
theorem c6_witness :
    fetchCreatorChats storeErr 7 = []
    ∧ fetchCreatorChats { store6ok with analystsError := true } 7
        = fetchCreatorChats { store6ok with analysts := [] } 7
    ∧ fetchCreatorChats { store6ok with rpcError := true } 7
        = (fetchCreatorChats store6ok 7).map (fun ch => { ch with lastMessage := none }) :=
  ⟨c6_amended.1 storeErr 7 rfl, c6_amended.2.1 store6ok 7,
    c6_amended.2.2.2.2.2.2 store6ok 7⟩
